import Mathlib

/-!
# Verification of the C++Safe macro layer and documented runtime contract

Shallow embedding of the concrete C++ helpers shipped with the C++Safe
repository (the `format` helper, the `slice` function, the `range` macro,
the `test`/`assert` macros and the `safe` ownership macro), together with
models of the documented-but-unimplemented lowering facilities (named
parameters, parser/printer round trip) taken from the design documents.
-/

namespace CppSafe

/-! ## Values rendered to an output stream

The C++ helpers print values with `operator<<` on an `std::ostringstream` /
`std::cout`.  We model the streamable values used by the examples (integers,
strings, booleans) together with their stream rendering. -/

/-- A value that can be inserted into an output stream with `operator<<`. -/
inductive Val where
  | vInt : Int → Val
  | vStr : String → Val
  | vBool : Bool → Val
deriving DecidableEq, Repr

/-- The text `operator<<` produces for one value (`std::ostream` default
formatting: decimal integers, raw string data, `1`/`0` for booleans). -/
def render : Val → String
  | .vInt n => toString n
  | .vStr s => s
  | .vBool b => if b then "1" else "0"

/-! ## `format` (src/unnamed/part_005)

```cpp
template <typename... Args>
std::string format(Args... args) {
    std::ostringstream oss;
    (oss << ... << args);
    return oss.str();
}
```

The fold expression `(oss << ... << args)` inserts every argument into the
stream from left to right; the stream accumulates the concatenation of the
individual renderings. -/

/-- `format(args...)`: left-to-right insertion of every argument into an
initially empty `ostringstream`, returning the accumulated string. -/
def format (args : List Val) : String :=
  args.foldl (fun oss a => oss ++ render a) ""

/-- `print(args...)`: `std::cout << format(args...) << std::endl`. -/
def print (args : List Val) : String :=
  format args ++ "\n"

/-! ## `slice` (src/examples/slices_ranges.cpp)

```cpp
template <typename T>
std::vector<T> slice(const std::vector<T>& vec, size_t start, size_t end) {
    if (start >= vec.size() || end > vec.size() || start >= end) {
        throw std::out_of_range("Invalid slice indices");
    }
    return {vec.begin() + start, vec.begin() + end};
}
```

`size_t` arguments are modelled as `Nat`; the thrown exception becomes the
`Except.error` branch; the returned vector `{vec.begin()+start,
vec.begin()+end}` holds the elements at indices `start, …, end-1`. -/

/-- The `slice` function: guard condition exactly as in the source, then the
subvector from index `start` (inclusive) to `stop` (exclusive).  The second
index is named `stop` because `end` is reserved in Lean. -/
def slice {α : Type} (vec : List α) (start stop : Nat) : Except String (List α) :=
  if start ≥ vec.length ∨ stop > vec.length ∨ start ≥ stop then
    .error "Invalid slice indices"
  else
    .ok ((vec.drop start).take (stop - start))

/-! ## `range` (src/examples/slices_ranges.cpp)

```cpp
#define range(start, end, step) [](int s, int e, int st) {
    std::vector<int> r;
    for (int i = s; i < e; i += st) r.push_back(i);
    return r;
}(start, end, step)
```

The loop `for (int i = s; i < e; i += st)` need not terminate (for
`st <= 0` with `s < e` it runs forever, up to `int` overflow), so the loop is
embedded with an explicit iteration budget: `rangeFuel n s e st` is `some l`
when the loop finishes within `n` iterations with result `l`, and `none`
when `n` iterations do not reach the exit test.  The C `int`s are modelled
as unbounded `Int` (overflow is undefined behaviour in the source). -/

/-- The `range` loop, executed with an iteration budget. -/
def rangeFuel : Nat → Int → Int → Int → Option (List Int)
  | 0, _, _, _ => none
  | n + 1, i, e, st =>
    if i < e then (rangeFuel n (i + st) e st).map (fun r => i :: r) else some []

/-- The call `range(s, e, st)` terminates and produces the vector `l`. -/
def RangeResult (s e st : Int) (l : List Int) : Prop :=
  ∃ n, rangeFuel n s e st = some l

/-- The call `range(s, e, st)` never terminates: no iteration budget reaches
the loop exit. -/
def RangeDiverges (s e st : Int) : Prop :=
  ∀ n, rangeFuel n s e st = none

/-- The arithmetic progression `s, s+st, s+2·st, …` of the values below `e`
(meaningful for `0 < st`): the reference sequence the `range` loop produces
when it terminates. -/
def rangeList (s e st : Int) : List Int :=
  if _h : 0 < st ∧ s < e then s :: rangeList (s + st) e st else []
termination_by (e - s).toNat
decreasing_by
  simp_wf
  omega

/-! ## `test` / `assert` (src/docs/examples/inline_testing.cpp)

```cpp
#define test(desc, block)                          \
    do {                                           \
        std::cout << "Running test: " << desc      \
                  << std::endl;                    \
        block;                                     \
    } while (0)

#define assert(condition)                          \
    if (!(condition)) {                            \
        std::cerr << "Assertion failed: "          \
                  << #condition << std::endl;      \
    } else {                                       \
        std::cout << "Assertion passed: "          \
                  << #condition << std::endl;      \
    }
```

Execution is modelled by the trace of output events a statement emits.
`test(desc, block)` expands in place: it prints the banner and then runs the
block right there; `assert(c)` prints one message per evaluation and falls
through either way. -/

/-- One event on the process's standard streams. -/
inductive OutEvent where
  | out : String → OutEvent
  | err : String → OutEvent
deriving DecidableEq, Repr

/-- A statement occurring inside a test block: an `assert(condition)` whose
condition text and evaluated truth value are given, or any other statement
together with the output events it emits. -/
inductive TStmt where
  | assertStmt : String → Bool → TStmt
  | plain : List OutEvent → TStmt
deriving DecidableEq, Repr

/-- Executing one statement: the `assert` macro prints
`Assertion passed: <condition>` to `cout` or `Assertion failed: <condition>`
to `cerr` and continues either way. -/
def runTStmt : TStmt → List OutEvent
  | .assertStmt condText cond =>
    if cond then [.out ("Assertion passed: " ++ condText)]
    else [.err ("Assertion failed: " ++ condText)]
  | .plain events => events

/-- Executing a block: every statement runs, in order. -/
def runBlock (b : List TStmt) : List OutEvent :=
  (b.map runTStmt).flatten

/-- The `test(desc, block)` macro: print the banner, then run the block in
place. -/
def runTestBlock (desc : String) (block : List TStmt) : List OutEvent :=
  .out ("Running test: " ++ desc) :: runBlock block

/-- `main` of `inline_testing.cpp`: a sequence of `test` blocks executed top
to bottom, then `return 0;`.  The result is the output trace of the normal
program run and the process exit status. -/
def runMain (tests : List (String × List TStmt)) : List OutEvent × Int :=
  ((tests.map (fun t => runTestBlock t.1 t.2)).flatten, 0)

/-- `int add(int a, int b) { return a + b; }` -/
def add (a b : Int) : Int := a + b

/-- `bool isEven(int number) { return number % 2 == 0; }` -/
def isEven (number : Int) : Bool := number % 2 == 0

/-- The three `test` blocks of `main` in `inline_testing.cpp`, with each
assert condition evaluated as the C++ expression evaluates. -/
def inlineTestingMain : List (String × List TStmt) :=
  [("Addition Test",
    [.assertStmt "add(2, 3) == 5" (add 2 3 == 5),
     .assertStmt "add(-1, 1) == 0" (add (-1) 1 == 0)]),
   ("Even Number Test",
    [.assertStmt "isEven(4) == true" (isEven 4 == true),
     .assertStmt "isEven(5) == false" (isEven 5 == false)]),
   ("String Equality Test",
    [.plain [],
     .assertStmt "hello + \" \" + world == \"Hello World\""
       (("Hello" ++ " " ++ "World") == "Hello World")])]

/-! ## `safe` (src/unnamed/part_003, src/docs/implementation.md)

```cpp
#define safe(type, ...) std::make_shared<type>(__VA_ARGS__)
```

The implementation guide documents `safe` as a wrapper around
`std::make_shared`, i.e. a `std::shared_ptr` with shared, reference-counted
ownership.  The allocation is modelled by its use count and liveness:
`make_shared` starts with one owner; copy construction, copy assignment and
pass/return by value add an owner; destroying an owner removes one and
releases the object when the last owner goes away. -/

/-- The state of one `shared_ptr`-managed allocation. -/
structure SafeState where
  useCount : Nat
  alive : Bool
deriving DecidableEq, Repr

/-- `safe(T, args...)` = `std::make_shared<T>(args...)`: a live allocation
with a single owner. -/
def makeSafe : SafeState := ⟨1, true⟩

/-- Operations the program can perform on the handles of one allocation. -/
inductive SafeOp where
  | copy
  | destroy
deriving DecidableEq, Repr

/-- `shared_ptr` semantics of one operation: a copy adds an owner; destroying
an owner subtracts one, releasing the object when the last owner goes. -/
def safeStep : SafeState → SafeOp → SafeState
  | s, .copy => ⟨s.useCount + 1, s.alive⟩
  | s, .destroy => if s.useCount ≤ 1 then ⟨0, false⟩ else ⟨s.useCount - 1, s.alive⟩

/-- Running a sequence of operations on a freshly created `safe` value. -/
def safeRun (ops : List SafeOp) : SafeState :=
  ops.foldl safeStep makeSafe

/-- An operation sequence is well formed when every operation acts on an
allocation that still has at least one owner. -/
def validOps : SafeState → List SafeOp → Bool
  | _, [] => true
  | s, op :: ops => decide (0 < s.useCount) && validOps (safeStep s op) ops

/-! ## Named-parameter calls (docs/roadmap.md, spec §4.3/§4.4/§8 Example 2)

The dialect documents named-parameter calls (`add(b = 2, a = 3)`) as a
planned feature; the repository contains no implementation of the resolver
or the lowering, so the functions below are modelled from the specification
text.  Argument values are integers, as in the `add` example. -/

/-- Modelled from the spec: named-argument lookup (no resolver exists in the
repository) — the value the `name = value` argument list supplies for the
parameter name `n`, i.e. the first binding for that name. -/
def lookupArg : List (String × Int) → String → Option Int
  | [], _ => none
  | a :: args, n => if a.1 == n then some a.2 else lookupArg args n

/-- Modelled from the spec: call validation (no resolver exists in the
repository) — every supplied name must exist in the callee's parameter list
and every required parameter must be supplied exactly once; duplicate or
unknown names are errors. -/
def validNamedCall (params : List String) (args : List (String × Int)) : Bool :=
  args.all (fun a => params.contains a.1) &&
    params.all (fun p => (args.map (fun a => a.1)).count p == 1)

/-- Modelled from the spec: the lowering of a validated named call (no
lowering stage exists in the repository) — the supplied arguments reordered
into the callee's declared parameter order, giving a positional call. -/
def lowerNamedCall (params : List String) (args : List (String × Int)) :
    Option (List Int) :=
  if validNamedCall params args then
    some (params.map (fun p => (lookupArg args p).getD 0))
  else none

/-- The parameter environment a named call binds: each name maps to the value
supplied for it. -/
def envOfNamed (args : List (String × Int)) : String → Int :=
  fun n => (lookupArg args n).getD 0

/-- The parameter environment a positional call binds: the i-th declared
parameter maps to the i-th positional argument. -/
def envOfPositional (params : List String) (vals : List Int) : String → Int :=
  fun n => (lookupArg (params.zip vals) n).getD 0

/-! ## Parser and pretty-printer (docs/grammar.md, spec §4.2, §8)

The repository documents the dialect grammar in EBNF (docs/grammar.md) and
the Parser contract (spec §4.2: recursive descent from a token stream,
operator precedence unary > multiplicative > additive > comparison >
logical) but ships no implementation, so both the parser and the printer
are modelled from those documents.  The productions implemented are exactly
the ones grammar.md defines: variable/constant declarations, expression
statements, function declarations, if/else, for-in over `range`, while,
class declarations with fields and methods, `let x = safe<T>(e?);`,
`test "desc" { … }`, `assert(e)`, `async f() { … }`,
`thread t = spawn { … }`; expressions are integer/float/string literals,
identifiers, calls, binary and unary operators at the documented precedence
levels, array slices `a[i:j]` and `await f()`.  `Statement+` sequences are
nonempty by construction (`Block` carries a first statement). -/

/-- A token as delivered by the Lexer: identifiers, literals, and fixed
lexemes (keywords, operators, punctuation) as `sym`.  Literal tokens carry
their value (integers) or lexeme parts (float digit strings). -/
inductive Tok where
  | ident : String → Tok
  | intTok : Nat → Tok
  | floatTok : String → String → Tok
  | strTok : String → Tok
  | sym : String → Tok
deriving DecidableEq, Repr

/-- Binary operators, spec §4.2: multiplicative > additive > comparison >
logical. -/
inductive BinOp where
  | mul | div | add | sub
  | lt | gt | le | ge | eq | ne
  | land | lor
deriving DecidableEq, Repr

/-- Unary operators. -/
inductive UnOp where
  | neg | lnot
deriving DecidableEq, Repr

/-- Precedence level of a binary operator: logical 1 < comparison 2 <
additive 3 < multiplicative 4 (unary is 5, primary 6). -/
def opLv : BinOp → Nat
  | .lor => 1 | .land => 1
  | .lt => 2 | .gt => 2 | .le => 2 | .ge => 2 | .eq => 2 | .ne => 2
  | .add => 3 | .sub => 3
  | .mul => 4 | .div => 4

/-- Lexeme of a binary operator. -/
def opText : BinOp → String
  | .mul => "*" | .div => "/" | .add => "+" | .sub => "-"
  | .lt => "<" | .gt => ">" | .le => "<=" | .ge => ">=" | .eq => "==" | .ne => "!="
  | .land => "&&" | .lor => "||"

/-- Lexeme of a unary operator. -/
def unText : UnOp → String
  | .neg => "-" | .lnot => "!"

/-- Recognize an operator lexeme. -/
def opOfSym (s : String) : Option BinOp :=
  if s == "*" then some .mul else if s == "/" then some .div
  else if s == "+" then some .add else if s == "-" then some .sub
  else if s == "<" then some .lt else if s == ">" then some .gt
  else if s == "<=" then some .le else if s == ">=" then some .ge
  else if s == "==" then some .eq else if s == "!=" then some .ne
  else if s == "&&" then some .land else if s == "||" then some .lor
  else none

/-- Expressions, per grammar.md and the spec's AST data model: literals,
identifier references, calls, binary/unary operator applications, array
slices `a[lo:hi]` (integer bounds, as in the EBNF) and `await f()`. -/
inductive Expr where
  | intLit : Nat → Expr
  | floatLit : String → String → Expr
  | strLit : String → Expr
  | var : String → Expr
  | call : String → List Expr → Expr
  | bin : BinOp → Expr → Expr → Expr
  | un : UnOp → Expr → Expr
  | sliceE : String → Nat → Nat → Expr
  | awaitE : String → Expr

mutual

/-- Size measure for expressions. -/
def sizeE : Expr → Nat
  | .call _ args => sizeArgs args + 1
  | .bin _ l r => sizeE l + sizeE r + 1
  | .un _ x => sizeE x + 1
  | _ => 1

/-- Size measure for argument lists. -/
def sizeArgs : List Expr → Nat
  | [] => 0
  | a :: as => sizeE a + sizeArgs as + 1

end

mutual

/-- Statements, exactly the statement forms grammar.md defines. -/
inductive Stmt where
  | letDecl : String → Option String → Expr → Stmt
  | constDecl : String → Option String → Expr → Stmt
  | exprStmt : Expr → Stmt
  | funcDecl : String → List (String × String) → Option String → Block → Stmt
  | ifStmt : Expr → Block → Option Block → Stmt
  | forStmt : String → Expr → Expr → Option Expr → Block → Stmt
  | whileStmt : Expr → Block → Stmt
  | classDecl : String → List ClassMember → Stmt
  | safeDecl : String → String → Option Expr → Stmt
  | testStmt : String → Block → Stmt
  | assertS : Expr → Stmt
  | asyncFunc : String → Block → Stmt
  | threadSpawn : String → Block → Stmt

/-- A `Statement+` sequence (`Block ::= "{" Statement+ "}"`), nonempty by
construction. -/
inductive Block where
  | mk : Stmt → List Stmt → Block

/-- A class member: `let x: T;` field or a method (a function declaration). -/
inductive ClassMember where
  | field : String → String → ClassMember
  | method : String → List (String × String) → Option String → Block → ClassMember

end

mutual

/-- Size measure for statements (counting nested blocks; expressions are
handled by their own measure). -/
def sizeS : Stmt → Nat
  | .funcDecl _ _ _ b => sizeB b + 1
  | .ifStmt _ tb eb =>
    sizeB tb + (match eb with | none => 0 | some b => sizeB b) + 1
  | .forStmt _ _ _ _ b => sizeB b + 1
  | .whileStmt _ b => sizeB b + 1
  | .classDecl _ ms => sizeMs ms + 1
  | .testStmt _ b => sizeB b + 1
  | .asyncFunc _ b => sizeB b + 1
  | .threadSpawn _ b => sizeB b + 1
  | _ => 1

/-- Size measure for blocks. -/
def sizeB : Block → Nat
  | .mk s ss => sizeS s + sizeSs ss + 1

/-- Size measure for statement lists. -/
def sizeSs : List Stmt → Nat
  | [] => 0
  | s :: ss => sizeS s + sizeSs ss + 1

/-- Size measure for class members. -/
def sizeM : ClassMember → Nat
  | .field _ _ => 1
  | .method _ _ _ b => sizeB b + 1

/-- Size measure for class bodies. -/
def sizeMs : List ClassMember → Nat
  | [] => 0
  | m :: ms => sizeM m + sizeMs ms + 1

end

/-- The precedence level at which an expression's own top construct prints. -/
def lvE : Expr → Nat
  | .bin op _ _ => opLv op
  | .un _ _ => 5
  | _ => 6

/-- Wrap a token list in parentheses when `b` holds. -/
def parensIf (b : Bool) (ts : List Tok) : List Tok :=
  if b then .sym "(" :: ts ++ [.sym ")"] else ts

mutual

/-- Print an expression with no outer parentheses; operands are printed one
level above their operator, so nested applications at the same level are
parenthesized and re-parse to the same tree. -/
def printBareE : Expr → List Tok
  | .intLit n => [.intTok n]
  | .floatLit w f => [.floatTok w f]
  | .strLit s => [.strTok s]
  | .var x => [.ident x]
  | .call f args => .ident f :: .sym "(" :: printArgsE args ++ [.sym ")"]
  | .bin op l r =>
    parensIf (lvE l < opLv op + 1) (printBareE l) ++ .sym (opText op) ::
      parensIf (lvE r < opLv op + 1) (printBareE r)
  | .un op x => .sym (unText op) :: parensIf (lvE x < 5) (printBareE x)
  | .sliceE a lo hi =>
    [.ident a, .sym "[", .intTok lo, .sym ":", .intTok hi, .sym "]"]
  | .awaitE f => [.sym "await", .ident f, .sym "(", .sym ")"]

/-- Print a call argument list (arguments at top level, comma-separated). -/
def printArgsE : List Expr → List Tok
  | [] => []
  | a :: as => parensIf (lvE a < 1) (printBareE a) ++ printArgsMore as

/-- Print `("," Argument)*`. -/
def printArgsMore : List Expr → List Tok
  | [] => []
  | a :: as => .sym "," :: parensIf (lvE a < 1) (printBareE a) ++ printArgsMore as

end

/-- Print an expression in a context of precedence `ctx`, parenthesizing when
the expression binds looser than the context. -/
def printE (e : Expr) (ctx : Nat) : List Tok :=
  parensIf (lvE e < ctx) (printBareE e)

/-- Print a parameter list `p: T ("," p: T)*`. -/
def printParams : List (String × String) → List Tok
  | [] => []
  | [(p, t)] => [.ident p, .sym ":", .ident t]
  | (p, t) :: ps => .ident p :: .sym ":" :: .ident t :: .sym "," :: printParams ps

/-- Print an optional `":" Type` return-type annotation. -/
def printRetTy : Option String → List Tok
  | none => []
  | some t => [.sym ":", .ident t]

mutual

/-- Print one statement. -/
def printS : Stmt → List Tok
  | .letDecl x ty e =>
    .sym "let" :: .ident x :: printRetTy ty ++ .sym "=" :: printE e 1 ++ [.sym ";"]
  | .constDecl x ty e =>
    .sym "const" :: .ident x :: printRetTy ty ++ .sym "=" :: printE e 1 ++ [.sym ";"]
  | .exprStmt e => printE e 1 ++ [.sym ";"]
  | .funcDecl f ps rt b =>
    .sym "func" :: .ident f :: .sym "(" :: printParams ps ++ .sym ")" ::
      printRetTy rt ++ printBlockTok b
  | .ifStmt c tb eb =>
    .sym "if" :: printE c 1 ++ printBlockTok tb ++
      (match eb with
       | none => []
       | some b => .sym "else" :: printBlockTok b)
  | .forStmt v lo hi st b =>
    .sym "for" :: .ident v :: .sym "in" :: .sym "range" :: .sym "(" ::
      printE lo 1 ++ .sym "," :: printE hi 1 ++
      (match st with
       | none => []
       | some s => .sym "," :: printE s 1) ++ .sym ")" :: printBlockTok b
  | .whileStmt c b => .sym "while" :: printE c 1 ++ printBlockTok b
  | .classDecl c ms => .sym "class" :: .ident c :: .sym "\x7b" :: printMembers ms ++ [.sym "\x7d"]
  | .safeDecl x t a =>
    .sym "let" :: .ident x :: .sym "=" :: .sym "safe" :: .sym "<" :: .ident t ::
      .sym ">" :: .sym "(" ::
      (match a with
       | none => []
       | some e => printE e 1) ++ [.sym ")", .sym ";"]
  | .testStmt d b => .sym "test" :: .strTok d :: printBlockTok b
  | .assertS c => .sym "assert" :: .sym "(" :: printE c 1 ++ [.sym ")"]
  | .asyncFunc f b => .sym "async" :: .ident f :: .sym "(" :: .sym ")" :: printBlockTok b
  | .threadSpawn t b =>
    .sym "thread" :: .ident t :: .sym "=" :: .sym "spawn" :: printBlockTok b

/-- Print the statements of a block. -/
def printB : Block → List Tok
  | .mk s ss => printS s ++ printSs ss

/-- Print a statement list. -/
def printSs : List Stmt → List Tok
  | [] => []
  | s :: ss => printS s ++ printSs ss

/-- Print a braced block. -/
def printBlockTok (b : Block) : List Tok :=
  .sym "\x7b" :: printB b ++ [.sym "\x7d"]

/-- Print a class member. -/
def printMember : ClassMember → List Tok
  | .field x t => [.sym "let", .ident x, .sym ":", .ident t, .sym ";"]
  | .method f ps rt b =>
    .sym "func" :: .ident f :: .sym "(" :: printParams ps ++ .sym ")" ::
      printRetTy rt ++ printBlockTok b

/-- Print a class body. -/
def printMembers : List ClassMember → List Tok
  | [] => []
  | m :: ms => printMember m ++ printMembers ms

end

/-- Pretty-print a whole program (`Program ::= Statement+`). -/
def printProgram (p : Block) : List Tok :=
  printB p

/-- Lookahead: does the stream start with the fixed lexeme `s`? -/
def startsWith (s : String) : List Tok → Bool
  | .sym s' :: _ => s' == s
  | _ => false

/-- Consume the fixed lexeme `s` or fail. -/
def expectSym (s : String) : List Tok → Option (List Tok)
  | .sym s' :: r => if s' == s then some r else none
  | _ => none

/-- Tail of `await f()` after the `await` keyword. -/
def parseAwaitTail : List Tok → Option (Expr × List Tok)
  | .ident f :: .sym "(" :: .sym ")" :: r => some (.awaitE f, r)
  | _ => none

/-- Tail of a slice `a[lo:hi]` after the opening bracket. -/
def parseSliceTail (a : String) : List Tok → Option (Expr × List Tok)
  | .intTok lo :: .sym ":" :: .intTok hi :: .sym "]" :: r => some (.sliceE a lo hi, r)
  | _ => none

/-- A `":" Type` annotation. -/
def parseAnnTail : List Tok → Option (String × List Tok)
  | .sym ":" :: .ident t :: r => some (t, r)
  | _ => none

/-- Tail of a class field `x: T;` after the `let` keyword. -/
def parseFieldTail : List Tok → Option (ClassMember × List Tok)
  | .ident x :: .sym ":" :: .ident t :: .sym ";" :: r => some (.field x t, r)
  | _ => none

mutual

/-- Parse a binary expression at precedence level `p` (1 logical … 4
multiplicative; level 5 delegates to unary), recursive descent with an
explicit recursion budget. -/
def parseBin : Nat → Nat → List Tok → Option (Expr × List Tok)
  | 0, _, _ => none
  | fuel + 1, p, ts =>
    if 5 ≤ p then parseUn fuel ts
    else
      match parseBin fuel (p + 1) ts with
      | none => none
      | some (x, r) => parseRest fuel p x r

/-- Parse the left-associative `(op operand)*` continuation at level `p`. -/
def parseRest : Nat → Nat → Expr → List Tok → Option (Expr × List Tok)
  | 0, _, _, _ => none
  | fuel + 1, p, acc, ts =>
    match ts with
    | .sym s :: r =>
      match opOfSym s with
      | some op =>
        if opLv op = p then
          match parseBin fuel (p + 1) r with
          | none => none
          | some (y, r₂) => parseRest fuel p (.bin op acc y) r₂
        else some (acc, ts)
      | none => some (acc, ts)
    | _ => some (acc, ts)

/-- Parse a unary expression (`("!" | "-") Unary | Primary`). -/
def parseUn : Nat → List Tok → Option (Expr × List Tok)
  | 0, _ => none
  | fuel + 1, ts =>
    if startsWith "!" ts then
      match parseUn fuel ts.tail with
      | none => none
      | some (x, r) => some (.un .lnot x, r)
    else if startsWith "-" ts then
      match parseUn fuel ts.tail with
      | none => none
      | some (x, r) => some (.un .neg x, r)
    else parsePrim fuel ts

/-- Parse a primary expression: literal, `await f()`, parenthesized
expression, slice, call or identifier. -/
def parsePrim : Nat → List Tok → Option (Expr × List Tok)
  | 0, _ => none
  | fuel + 1, ts =>
    match ts with
    | .intTok n :: r => some (.intLit n, r)
    | .floatTok w f :: r => some (.floatLit w f, r)
    | .strTok s :: r => some (.strLit s, r)
    | .sym "await" :: r => parseAwaitTail r
    | .sym "(" :: r =>
      match parseBin fuel 1 r with
      | none => none
      | some (e, r₁) =>
        match expectSym ")" r₁ with
        | none => none
        | some r₂ => some (e, r₂)
    | .ident f :: r => parseIdentTail fuel f r
    | _ => none

/-- After an identifier: a call, a slice, or a bare reference. -/
def parseIdentTail : Nat → String → List Tok → Option (Expr × List Tok)
  | 0, _, _ => none
  | fuel + 1, f, ts =>
    match ts with
    | .sym "(" :: r =>
      if startsWith ")" r then some (.call f [], r.tail)
      else
        match parseBin fuel 1 r with
        | none => none
        | some (a, r₁) =>
          match parseArgsRest fuel r₁ with
          | none => none
          | some (as, r₂) =>
            match expectSym ")" r₂ with
            | none => none
            | some r₃ => some (.call f (a :: as), r₃)
    | .sym "[" :: r => parseSliceTail f r
    | _ => some (.var f, ts)

/-- Parse the `("," Argument)*` continuation of a call. -/
def parseArgsRest : Nat → List Tok → Option (List Expr × List Tok)
  | 0, _ => none
  | fuel + 1, ts =>
    if startsWith "," ts then
      match parseBin fuel 1 ts.tail with
      | none => none
      | some (a, r₁) =>
        match parseArgsRest fuel r₁ with
        | none => none
        | some (as, r₂) => some (a :: as, r₂)
    else some ([], ts)

/-- Parse one statement: dispatch on the leading keyword, defaulting to an
expression statement. -/
def parseStmt : Nat → List Tok → Option (Stmt × List Tok)
  | 0, _ => none
  | fuel + 1, ts =>
    if startsWith "let" ts then parseLetTail fuel ts.tail
    else if startsWith "const" ts then parseConstTail fuel ts.tail
    else if startsWith "func" ts then
      match parseFuncTail fuel ts.tail with
      | none => none
      | some ((f, ps, rt, b), r₁) => some (.funcDecl f ps rt b, r₁)
    else if startsWith "if" ts then parseIfTail fuel ts.tail
    else if startsWith "for" ts then parseForTail fuel ts.tail
    else if startsWith "while" ts then
      match parseBin fuel 1 ts.tail with
      | none => none
      | some (c, r₁) =>
        match parseBlockTok fuel r₁ with
        | none => none
        | some (b, r₂) => some (.whileStmt c b, r₂)
    else if startsWith "class" ts then parseClassTail fuel ts.tail
    else if startsWith "test" ts then parseTestTail fuel ts.tail
    else if startsWith "assert" ts then parseAssertTail fuel ts.tail
    else if startsWith "async" ts then parseAsyncTail fuel ts.tail
    else if startsWith "thread" ts then parseThreadTail fuel ts.tail
    else
      match parseBin fuel 1 ts with
      | none => none
      | some (e, r₁) =>
        match expectSym ";" r₁ with
        | none => none
        | some r₂ => some (.exprStmt e, r₂)

/-- Tail of a `let` statement: annotated declaration, `safe` declaration, or
plain declaration. -/
def parseLetTail : Nat → List Tok → Option (Stmt × List Tok)
  | 0, _ => none
  | fuel + 1, ts =>
    match ts with
    | .ident x :: .sym ":" :: .ident t :: .sym "=" :: r =>
      match parseBin fuel 1 r with
      | none => none
      | some (e, r₁) =>
        match expectSym ";" r₁ with
        | none => none
        | some r₂ => some (.letDecl x (some t) e, r₂)
    | .ident x :: .sym "=" :: r =>
      if startsWith "safe" r then parseSafeTail fuel x r.tail
      else
        match parseBin fuel 1 r with
        | none => none
        | some (e, r₁) =>
          match expectSym ";" r₁ with
          | none => none
          | some r₂ => some (.letDecl x none e, r₂)
    | _ => none

/-- Tail of `let x = safe<T>(e?);` after the `safe` keyword. -/
def parseSafeTail : Nat → String → List Tok → Option (Stmt × List Tok)
  | 0, _, _ => none
  | fuel + 1, x, ts =>
    match ts with
    | .sym "<" :: .ident t :: .sym ">" :: .sym "(" :: r =>
      if startsWith ")" r then
        match expectSym ";" r.tail with
        | none => none
        | some r₂ => some (.safeDecl x t none, r₂)
      else
        match parseBin fuel 1 r with
        | none => none
        | some (e, r₁) =>
          match expectSym ")" r₁ with
          | none => none
          | some r₂ =>
            match expectSym ";" r₂ with
            | none => none
            | some r₃ => some (.safeDecl x t (some e), r₃)
    | _ => none

/-- Tail of a `const` declaration after the keyword. -/
def parseConstTail : Nat → List Tok → Option (Stmt × List Tok)
  | 0, _ => none
  | fuel + 1, ts =>
    match ts with
    | .ident x :: .sym ":" :: .ident t :: .sym "=" :: r =>
      match parseBin fuel 1 r with
      | none => none
      | some (e, r₁) =>
        match expectSym ";" r₁ with
        | none => none
        | some r₂ => some (.constDecl x (some t) e, r₂)
    | .ident x :: .sym "=" :: r =>
      match parseBin fuel 1 r with
      | none => none
      | some (e, r₁) =>
        match expectSym ";" r₁ with
        | none => none
        | some r₂ => some (.constDecl x none e, r₂)
    | _ => none

/-- Tail of an `if` statement after the keyword. -/
def parseIfTail : Nat → List Tok → Option (Stmt × List Tok)
  | 0, _ => none
  | fuel + 1, ts =>
    match parseBin fuel 1 ts with
    | none => none
    | some (c, r₁) =>
      match parseBlockTok fuel r₁ with
      | none => none
      | some (tb, r₂) =>
        if startsWith "else" r₂ then
          match parseBlockTok fuel r₂.tail with
          | none => none
          | some (eb, r₃) => some (.ifStmt c tb (some eb), r₃)
        else some (.ifStmt c tb none, r₂)

/-- Tail of a `for`-in-`range` statement after the keyword. -/
def parseForTail : Nat → List Tok → Option (Stmt × List Tok)
  | 0, _ => none
  | fuel + 1, ts =>
    match ts with
    | .ident v :: .sym "in" :: .sym "range" :: .sym "(" :: r =>
      match parseBin fuel 1 r with
      | none => none
      | some (lo, r₁) =>
        match expectSym "," r₁ with
        | none => none
        | some r₂ =>
          match parseBin fuel 1 r₂ with
          | none => none
          | some (hi, r₃) =>
            if startsWith "," r₃ then
              match parseBin fuel 1 r₃.tail with
              | none => none
              | some (st, r₄) =>
                match expectSym ")" r₄ with
                | none => none
                | some r₅ =>
                  match parseBlockTok fuel r₅ with
                  | none => none
                  | some (b, r₆) => some (.forStmt v lo hi (some st) b, r₆)
            else
              match expectSym ")" r₃ with
              | none => none
              | some r₄ =>
                match parseBlockTok fuel r₄ with
                | none => none
                | some (b, r₅) => some (.forStmt v lo hi none b, r₅)
    | _ => none

/-- Tail of a `class` declaration after the keyword. -/
def parseClassTail : Nat → List Tok → Option (Stmt × List Tok)
  | 0, _ => none
  | fuel + 1, ts =>
    match ts with
    | .ident c :: .sym "\x7b" :: r =>
      match parseMembers fuel r with
      | none => none
      | some (ms, r₁) =>
        match expectSym "\x7d" r₁ with
        | none => none
        | some r₂ => some (.classDecl c ms, r₂)
    | _ => none

/-- Tail of a `test` statement after the keyword. -/
def parseTestTail : Nat → List Tok → Option (Stmt × List Tok)
  | 0, _ => none
  | fuel + 1, ts =>
    match ts with
    | .strTok d :: r =>
      match parseBlockTok fuel r with
      | none => none
      | some (b, r₁) => some (.testStmt d b, r₁)
    | _ => none

/-- Tail of an `assert(e)` statement after the keyword. -/
def parseAssertTail : Nat → List Tok → Option (Stmt × List Tok)
  | 0, _ => none
  | fuel + 1, ts =>
    match ts with
    | .sym "(" :: r =>
      match parseBin fuel 1 r with
      | none => none
      | some (c, r₁) =>
        match expectSym ")" r₁ with
        | none => none
        | some r₂ => some (.assertS c, r₂)
    | _ => none

/-- Tail of an `async f() { … }` declaration after the keyword. -/
def parseAsyncTail : Nat → List Tok → Option (Stmt × List Tok)
  | 0, _ => none
  | fuel + 1, ts =>
    match ts with
    | .ident f :: .sym "(" :: .sym ")" :: r =>
      match parseBlockTok fuel r with
      | none => none
      | some (b, r₁) => some (.asyncFunc f b, r₁)
    | _ => none

/-- Tail of a `thread t = spawn { … }` statement after the keyword. -/
def parseThreadTail : Nat → List Tok → Option (Stmt × List Tok)
  | 0, _ => none
  | fuel + 1, ts =>
    match ts with
    | .ident t :: .sym "=" :: .sym "spawn" :: r =>
      match parseBlockTok fuel r with
      | none => none
      | some (b, r₁) => some (.threadSpawn t b, r₁)
    | _ => none

/-- Parse a braced block `"{" Statement+ "}"`. -/
def parseBlockTok : Nat → List Tok → Option (Block × List Tok)
  | 0, _ => none
  | fuel + 1, ts =>
    match expectSym "\x7b" ts with
    | none => none
    | some r =>
      match parseStmt fuel r with
      | none => none
      | some (s, r₁) =>
        match parseMore fuel r₁ with
        | none => none
        | some (ss, r₂) =>
          match expectSym "\x7d" r₂ with
          | none => none
          | some r₃ => some (.mk s ss, r₃)

/-- Parse further statements of a block, stopping at the closing brace. -/
def parseMore : Nat → List Tok → Option (List Stmt × List Tok)
  | 0, _ => none
  | fuel + 1, ts =>
    if startsWith "\x7d" ts then some ([], ts)
    else
      match parseStmt fuel ts with
      | none => none
      | some (s, r₁) =>
        match parseMore fuel r₁ with
        | none => none
        | some (ss, r₂) => some (s :: ss, r₂)

/-- Parse the members of a class body, stopping at the closing brace. -/
def parseMembers : Nat → List Tok → Option (List ClassMember × List Tok)
  | 0, _ => none
  | fuel + 1, ts =>
    if startsWith "\x7d" ts then some ([], ts)
    else
      match parseMember fuel ts with
      | none => none
      | some (m, r₁) =>
        match parseMembers fuel r₁ with
        | none => none
        | some (ms, r₂) => some (m :: ms, r₂)

/-- Parse one class member: a `let x: T;` field or a method. -/
def parseMember : Nat → List Tok → Option (ClassMember × List Tok)
  | 0, _ => none
  | fuel + 1, ts =>
    if startsWith "let" ts then parseFieldTail ts.tail
    else if startsWith "func" ts then
      match parseFuncTail fuel ts.tail with
      | none => none
      | some ((f, ps, rt, b), r₁) => some (.method f ps rt b, r₁)
    else none

/-- Parse the tail of a function declaration after the `func` keyword:
name, parameter list, optional return type, body. -/
def parseFuncTail : Nat → List Tok →
    Option ((String × List (String × String) × Option String × Block) × List Tok)
  | 0, _ => none
  | fuel + 1, ts =>
    match ts with
    | .ident f :: .sym "(" :: r =>
      match parseParams fuel r with
      | none => none
      | some (ps, r₁) =>
        match expectSym ")" r₁ with
        | none => none
        | some r₂ =>
          if startsWith ":" r₂ then
            match parseAnnTail r₂ with
            | none => none
            | some (t, r₃) =>
              match parseBlockTok fuel r₃ with
              | none => none
              | some (b, r₄) => some ((f, ps, some t, b), r₄)
          else
            match parseBlockTok fuel r₂ with
            | none => none
            | some (b, r₃) => some ((f, ps, none, b), r₃)
    | _ => none

/-- Parse a (possibly empty) parameter list `p: T ("," p: T)*`. -/
def parseParams : Nat → List Tok → Option (List (String × String) × List Tok)
  | 0, _ => none
  | fuel + 1, ts =>
    match ts with
    | .ident p :: .sym ":" :: .ident t :: r =>
      if startsWith "," r then
        match parseParams fuel r.tail with
        | none => none
        | some (ps, r₁) => some ((p, t) :: ps, r₁)
      else some ([(p, t)], r)
    | _ => some ([], ts)

/-- Parse the remaining top-level statements, stopping at the end of the
token stream. -/
def parseTopRest : Nat → List Tok → Option (List Stmt × List Tok)
  | 0, _ => none
  | fuel + 1, ts =>
    if ts.isEmpty then some ([], ts)
    else
      match parseStmt fuel ts with
      | none => none
      | some (s, r₁) =>
        match parseTopRest fuel r₁ with
        | none => none
        | some (ss, r₂) => some (s :: ss, r₂)

end

/-- Parse a whole program (`Program ::= Statement+`), requiring the entire
token stream to be consumed. -/
def parseProgram (fuel : Nat) (ts : List Tok) : Option Block :=
  match parseStmt fuel ts with
  | none => none
  | some (s, r) =>
    match parseTopRest fuel r with
    | none => none
    | some (ss, r₂) => if r₂.isEmpty then some (Block.mk s ss) else none

/-- The Parser produces the AST `b` from the token stream `ts` (at some
recursion budget; budgets are monotone for this parser). -/
def ParsesProgram (ts : List Tok) (b : Block) : Prop :=
  ∃ fuel, parseProgram fuel ts = some b

/-- A fueled parse function succeeds on `ts` with value `v` and remaining
input `rest` for every sufficiently large budget. -/
def PW {α : Type} (f : Nat → List Tok → Option (α × List Tok)) (ts : List Tok)
    (v : α) (rest : List Tok) : Prop :=
  ∃ n, ∀ fuel, n ≤ fuel → f fuel ts = some (v, rest)

/-- The operator, if any, that begins the stream. -/
def opHead : List Tok → Option BinOp
  | .sym s :: _ => opOfSym s
  | _ => none

/-- Follow-set condition for re-parsing an expression printed at level `p`
with continuation `rest`: any operator right after the expression binds
looser than `p`, and the continuation does not begin with `(` or `[` (which
would extend a trailing identifier into a call or slice). -/
def FollowClear (p : Nat) (rest : List Tok) : Prop :=
  (∀ op, opHead rest = some op → opLv op < p) ∧
    startsWith "(" rest = false ∧ startsWith "[" rest = false

/-- Tokens that can begin a printed expression. -/
def exprStartTok : Tok → Bool
  | .intTok _ => true
  | .floatTok _ _ => true
  | .strTok _ => true
  | .ident _ => true
  | .sym s => s == "(" || s == "!" || s == "-" || s == "await"

/-- Keyword tokens that can begin a statement. -/
def kwStartTok : Tok → Bool
  | .sym s =>
    s == "let" || s == "const" || s == "func" || s == "if" || s == "for" ||
      s == "while" || s == "class" || s == "test" || s == "assert" ||
      s == "async" || s == "thread"
  | _ => false

/-- Tokens that can begin a printed statement. -/
def stmtStartTok (t : Tok) : Bool :=
  exprStartTok t || kwStartTok t

end CppSafe

namespace CppSafe

/-! ### Theorems about `format` -/

theorem format_nil : format [] = "" := rfl

theorem format_append_aux (xs : List Val) (s : String) :
    xs.foldl (fun oss a => oss ++ render a) s = s ++ format xs := by
  induction xs generalizing s with
  | nil => simp [format]
  | cons x xs ih =>
    have h1 : format (x :: xs) = ("" ++ render x) ++ format xs := ih ("" ++ render x)
    have h2 : List.foldl (fun oss a => oss ++ render a) s (x :: xs)
        = (s ++ render x) ++ format xs := ih (s ++ render x)
    rw [h1, h2]
    simp [String.append_assoc]

theorem format_append (xs ys : List Val) :
    format (xs ++ ys) = format xs ++ format ys := by
  rw [format, List.foldl_append]
  exact format_append_aux ys _

theorem format_singleton (x : Val) : format [x] = render x := by
  simp [format]

theorem join_shift (l : List String) (s : String) :
    l.foldl (fun r t => r ++ t) s = s ++ String.join l := by
  induction l generalizing s with
  | nil => simp [String.join]
  | cons x l ih =>
    have h1 : String.join (x :: l) = ("" ++ x) ++ String.join l := ih ("" ++ x)
    have h2 : List.foldl (fun r t => r ++ t) s (x :: l) = (s ++ x) ++ String.join l :=
      ih (s ++ x)
    rw [h1, h2]
    simp [String.append_assoc]

/-- **C10.** `format` concatenates the stream renderings of its arguments in
order with no separator: it sends the empty argument list to the empty
string, splits over list concatenation (a monoid homomorphism from argument
lists to strings), equals the concatenation of the individual renderings,
and `print` appends only the final newline — no space or separator is ever
inserted between adjacent arguments. -/
theorem format_monoid_hom :
    format [] = "" ∧
    (∀ xs ys : List Val, format (xs ++ ys) = format xs ++ format ys) ∧
    (∀ xs : List Val, format xs = String.join (xs.map render)) ∧
    (∀ xs : List Val, print xs = format xs ++ "\n") := by
  refine ⟨rfl, format_append, ?_, fun xs => rfl⟩
  intro xs
  induction xs with
  | nil => rfl
  | cons x xs ih =>
    have hx : format (x :: xs) = ("" ++ render x) ++ format xs :=
      format_append_aux xs ("" ++ render x)
    have hj : String.join (List.map render (x :: xs)) =
        ("" ++ render x) ++ String.join (List.map render xs) :=
      join_shift (List.map render xs) ("" ++ render x)
    rw [hx, hj, ih]

/-! ### Theorems about `slice` -/

/-- **C2.** For `0 ≤ start < stop ≤ length v`, `slice v start stop` succeeds and
returns exactly the elements of `v` at indices `start, start+1, …, stop-1`,
in order (half-open, zero-based): the result is the image of the index list
`[start, …, stop-1]` under position lookup in `v`. -/
theorem slice_elements {α : Type} [Inhabited α] (v : List α) (start stop : Nat)
    (h1 : start < stop) (h2 : stop ≤ v.length) :
    slice v start stop =
      Except.ok ((List.range' start (stop - start)).map (fun i => v.getD i default)) := by
  rw [slice, if_neg (by omega)]
  congr 1
  apply List.ext_getElem?
  intro n
  rw [List.getElem?_map, List.getElem?_take]
  by_cases hn : n < stop - start
  · rw [if_pos hn, List.getElem?_drop, List.getElem?_range' _ _ hn]
    have hidx : start + n < v.length := by omega
    have h1n : start + 1 * n = start + n := by ring
    simp [h1n, List.getD_eq_getElem?_getD, List.getElem?_eq_getElem hidx]
  · rw [if_neg hn]
    have hlen : (List.range' start (stop - start)).length ≤ n := by
      rw [List.length_range']; omega
    rw [List.getElem?_eq_none hlen]
    rfl

/-- Witness for C2: `slice(nums, 1, 4)` on the 5-element vector
`{10, 20, 30, 40, 50}` of the example program yields the elements at
indices 1, 2 and 3. -/
theorem slice_elements_witness :
    slice ([10, 20, 30, 40, 50] : List Int) 1 4 = Except.ok [20, 30, 40] := by
  rw [slice_elements ([10, 20, 30, 40, 50] : List Int) 1 4 (by decide) (by decide)]
  rfl

/-- **C8.** `slice v start stop` raises the out-of-range error exactly when
`start ≥ length v`, `stop > length v` or `start ≥ stop`; in particular the
empty slice `start = stop` is always rejected, even within bounds.  (The
input vector is taken by `const` reference and never written, so the pure
embedding takes and returns it unchanged by construction.) -/
theorem slice_error_iff {α : Type} (v : List α) (start stop : Nat) :
    (slice v start stop = Except.error "Invalid slice indices" ↔
      start ≥ v.length ∨ stop > v.length ∨ start ≥ stop) ∧
    (start = stop → slice v start stop = Except.error "Invalid slice indices") := by
  constructor
  · constructor
    · intro h
      by_contra hc
      rw [slice, if_neg hc] at h
      exact Except.noConfusion h
    · intro h
      rw [slice, if_pos h]
  · intro h
    rw [slice, if_pos (Or.inr (Or.inr (le_of_eq h.symm)))]

/-- Witness for C8: the empty slice `slice(v, 1, 1)` on a 3-element vector is
rejected although both indices are in bounds. -/
theorem slice_error_iff_witness :
    slice ([1, 2, 3] : List Int) 1 1 = Except.error "Invalid slice indices" :=
  (slice_error_iff ([1, 2, 3] : List Int) 1 1).2 rfl

/-! ### Theorems about `range` -/

theorem rangeList_pos (s e st : Int) (hst : 0 < st) (hse : s < e) :
    rangeList s e st = s :: rangeList (s + st) e st := by
  conv_lhs => rw [rangeList]
  exact dif_pos ⟨hst, hse⟩

theorem rangeList_nil (s e st : Int) (h : ¬(0 < st ∧ s < e)) :
    rangeList s e st = [] := by
  rw [rangeList]
  exact dif_neg h

/-- A fuel budget one larger than the distance to cover always suffices for a
positive step: the loop terminates with the reference sequence. -/
theorem rangeFuel_enough (n : Nat) :
    ∀ s e st : Int, 0 < st → (e - s).toNat < n →
      rangeFuel n s e st = some (rangeList s e st) := by
  induction n with
  | zero =>
    intro s e st _ h
    exact absurd h (by omega)
  | succ n ih =>
    intro s e st hst h
    have hstep : rangeFuel (n + 1) s e st =
        if s < e then (rangeFuel n (s + st) e st).map (fun r => s :: r) else some [] := rfl
    rw [hstep]
    by_cases hse : s < e
    · rw [if_pos hse, ih (s + st) e st hst (by omega), rangeList_pos s e st hst hse]
      rfl
    · rw [if_neg hse, rangeList_nil s e st (by tauto)]

/-- Membership in the reference sequence: exactly the values
`s + k·st` (k ≥ 0) that lie strictly below `e`. -/
theorem mem_rangeList (s e st : Int) :
    0 < st → ∀ x : Int, (x ∈ rangeList s e st ↔ ∃ k : Nat, x = s + k * st ∧ x < e) := by
  induction s, e, st using rangeList.induct with
  | case1 s e st h ih =>
    intro hst x
    rw [rangeList_pos s e st h.1 h.2, List.mem_cons, ih hst x]
    constructor
    · rintro (rfl | ⟨k, rfl, hlt⟩)
      · exact ⟨0, by push_cast; ring, h.2⟩
      · exact ⟨k + 1, by push_cast; ring, hlt⟩
    · rintro ⟨k, rfl, hlt⟩
      cases k with
      | zero => left; push_cast; ring
      | succ k => right; exact ⟨k, by push_cast; ring, hlt⟩
  | case2 s e st h =>
    intro hst x
    rw [rangeList_nil s e st h]
    simp only [List.not_mem_nil, false_iff]
    rintro ⟨k, rfl, hlt⟩
    have hnn : (0 : Int) ≤ (k : Int) * st := mul_nonneg (Int.natCast_nonneg k) (le_of_lt hst)
    have hse : ¬ s < e := fun hc => h ⟨hst, hc⟩
    omega

/-- The reference sequence is strictly increasing (so in particular it lists
the values in order). -/
theorem rangeList_pairwise (s e st : Int) :
    0 < st → (rangeList s e st).Pairwise (· < ·) := by
  induction s, e, st using rangeList.induct with
  | case1 s e st h ih =>
    intro hst
    rw [rangeList_pos s e st h.1 h.2]
    refine List.Pairwise.cons ?_ (ih hst)
    intro y hy
    obtain ⟨k, rfl, _⟩ := ((mem_rangeList (s + st) e st hst y).mp hy)
    have hnn : (0 : Int) ≤ (k : Int) * st := mul_nonneg (Int.natCast_nonneg k) (le_of_lt hst)
    omega
  | case2 s e st h =>
    intro hst
    rw [rangeList_nil s e st h]
    exact List.Pairwise.nil

/-- **C3.** For every positive step, `range(start, end, step)` terminates and
its result is the arithmetic progression `start, start+step, start+2·step, …`
consisting of exactly the values of that form strictly below `end`
(half-open), listed in strictly increasing order; the result is empty
whenever `start ≥ end`. -/
theorem range_pos_step (s e st : Int) (hst : 0 < st) :
    RangeResult s e st (rangeList s e st) ∧
    (∀ x : Int, x ∈ rangeList s e st ↔ ∃ k : Nat, x = s + k * st ∧ x < e) ∧
    (rangeList s e st).Pairwise (· < ·) ∧
    (e ≤ s → rangeList s e st = []) :=
  ⟨⟨(e - s).toNat + 1, rangeFuel_enough _ s e st hst (by omega)⟩,
    mem_rangeList s e st hst,
    rangeList_pairwise s e st hst,
    fun hle => rangeList_nil s e st (fun hc => absurd hc.2 (not_lt.mpr hle))⟩

/-- Witness for C3: `range(0, 10, 2)` terminates (the loop finishes within 6
iterations) and yields `0, 2, 4, 6, 8`; the value `4 = 0 + 2·2` is in the
produced sequence. -/
theorem range_pos_step_witness :
    rangeFuel 6 0 10 2 = some [0, 2, 4, 6, 8] ∧ (4 : Int) ∈ rangeList 0 10 2 := by
  refine ⟨by decide, ?_⟩
  exact ((range_pos_step 0 10 2 (by decide)).2.1 4).mpr ⟨2, by decide, by decide⟩

/-- Counterexample to C4: the call `range(5, 3, 0)` has a zero step, yet it is
not rejected as an error — the loop exits immediately (the guard `5 < 3`
fails) and the call produces the empty sequence. -/
theorem range_zero_step_not_rejected : RangeResult 5 3 0 [] :=
  ⟨1, by decide⟩

/-- **C4 (amended).** The `range` macro applies no step-validation policy at
all: whenever `start ≥ end` the call returns the empty sequence for every
step value, including zero and negative steps; for a non-positive step with
`start < end` the loop never terminates (no error is reported — the call
diverges); and every call with a positive step terminates with a finite
sequence. -/
theorem range_step_policy (s e st : Int) :
    (e ≤ s → RangeResult s e st []) ∧
    (st ≤ 0 → s < e → RangeDiverges s e st) ∧
    (0 < st → RangeResult s e st (rangeList s e st)) := by
  refine ⟨?_, ?_, ?_⟩
  · intro hle
    refine ⟨1, ?_⟩
    have hstep : rangeFuel 1 s e st =
        if s < e then (rangeFuel 0 (s + st) e st).map (fun r => s :: r) else some [] := rfl
    rw [hstep, if_neg (not_lt.mpr hle)]
  · intro hst hse n
    induction n generalizing s with
    | zero => rfl
    | succ n ih =>
      have hstep : rangeFuel (n + 1) s e st =
          if s < e then (rangeFuel n (s + st) e st).map (fun r => s :: r) else some [] := rfl
      rw [hstep, if_pos hse, ih (s + st) (by omega)]
      rfl
  · intro hst
    exact ⟨(e - s).toNat + 1, rangeFuel_enough _ s e st hst (by omega)⟩

/-- Witness for C4 (amended): `range(3, 3, -1)` returns the empty sequence, a
zero step with `start < end` never terminates (shown here at budget 5), and
`range(0, 4, 2)` terminates with `0, 2`. -/
theorem range_step_policy_witness :
    RangeResult 3 3 (-1) [] ∧ rangeFuel 5 0 1 0 = none ∧ RangeResult 0 4 2 [0, 2] := by
  refine ⟨(range_step_policy 3 3 (-1)).1 (by decide),
    (range_step_policy 0 1 0).2.1 (by decide) (by decide) 5, ?_⟩
  have h := (range_step_policy 0 4 2).2.2 (by decide)
  have hv : rangeList 0 4 2 = [0, 2] := by
    rw [rangeList_pos 0 4 2 (by decide) (by decide)]
    norm_num
    rw [rangeList_pos 2 4 2 (by decide) (by decide)]
    norm_num
    rw [rangeList_nil 4 4 2 (by omega)]
  rwa [hv] at h

/-! ### Theorems about `test` / `assert` -/

/-- **C9.** A failing `assert(condition)` prints exactly the message
`Assertion failed: <condition>` (to `cerr`) and nothing else: it does not
terminate the program, throw, or alter control flow.  Every statement before
and after it in the same test block still runs with its effects in order,
every other test block in the program still runs, and the exit status of the
program is 0 no matter how many assertions fail. -/
theorem assert_failure_is_harmless (pre post : List TStmt) (condText : String)
    (tests1 tests2 : List (String × List TStmt)) (desc : String) :
    runTStmt (.assertStmt condText false) = [.err ("Assertion failed: " ++ condText)] ∧
    runBlock (pre ++ .assertStmt condText false :: post) =
      runBlock pre ++ .err ("Assertion failed: " ++ condText) :: runBlock post ∧
    (runMain (tests1 ++ (desc, pre ++ .assertStmt condText false :: post) :: tests2)).1 =
      (runMain tests1).1 ++
        (.out ("Running test: " ++ desc) ::
          (runBlock pre ++ .err ("Assertion failed: " ++ condText) :: runBlock post)) ++
        (runMain tests2).1 ∧
    (runMain (tests1 ++ (desc, pre ++ .assertStmt condText false :: post) :: tests2)).2 = 0 := by
  refine ⟨rfl, ?_, ?_, rfl⟩
  · simp [runBlock, runTStmt]
  · simp [runMain, runTestBlock, runBlock, runTStmt]

/-- Counterexample to C5: in the example program, the body of the
`"Addition Test"` block executes as part of the normal run of `main` — its
first assertion's output appears in the program's normal output trace — so
test bodies are not deferred to an external test runner. -/
theorem test_body_runs_during_main :
    OutEvent.out "Assertion passed: add(2, 3) == 5" ∈ (runMain inlineTestingMain).1 := by
  decide

/-- **C5 (amended).** An inline `test(desc, block)` use is not collected into
any registry: it expands to code executed in place during the normal run of
the program.  Running `main` emits, for each test block in order at its own
position, the banner `Running test: <desc>` immediately followed by the
effects of the block's body. -/
theorem test_blocks_run_inline (tests1 tests2 : List (String × List TStmt))
    (desc : String) (block : List TStmt) :
    (runMain (tests1 ++ (desc, block) :: tests2)).1 =
      (runMain tests1).1 ++
        (.out ("Running test: " ++ desc) :: runBlock block) ++ (runMain tests2).1 ∧
    (runMain (tests1 ++ (desc, block) :: tests2)).2 = 0 := by
  refine ⟨?_, rfl⟩
  simp [runMain, runTestBlock]

/-! ### Theorems about `safe` -/

/-- Counterexample to C1: starting from `safe<T>(...)` (one owner), a single
copy — a well-formed operation — leaves the allocation with **two** owners,
so a `safe` value does not have exactly one logical owner at every point and
copying does duplicate ownership. -/
theorem safe_copy_duplicates_ownership :
    validOps makeSafe [SafeOp.copy] = true ∧ (safeRun [SafeOp.copy]).useCount = 2 := by
  decide

/-- Auxiliary invariant: under well-formed operation sequences, liveness of
the allocation coincides with a positive owner count. -/
theorem safe_alive_iff_aux (ops : List SafeOp) :
    ∀ s : SafeState, validOps s ops = true → (s.alive = true ↔ 0 < s.useCount) →
      ((ops.foldl safeStep s).alive = true ↔ 0 < (ops.foldl safeStep s).useCount) := by
  induction ops with
  | nil => exact fun s _ h => h
  | cons op ops ih =>
    intro s hv h
    simp only [validOps, Bool.and_eq_true, decide_eq_true_eq] at hv
    refine ih (safeStep s op) hv.2 ?_
    cases op with
    | copy =>
      simp only [safeStep]
      constructor
      · intro _; omega
      · intro _; exact h.mpr hv.1
    | destroy =>
      simp only [safeStep]
      by_cases hc : s.useCount ≤ 1
      · rw [if_pos hc]
        simp
      · rw [if_neg hc]
        dsimp only
        constructor
        · intro _; omega
        · intro _; exact h.mpr hv.1

/-- **C1 (amended).** `safe<T>(...)` creates a shared, reference-counted
value, not a single-owner one: creation yields one owner; each copy
(assignment, argument passing, or copy construction) adds an owner rather
than transferring ownership, so the owner count can grow beyond one; and
under any well-formed operation sequence the allocation stays alive exactly
as long as at least one owner remains (automatic release when the last owner
goes away). -/
theorem safe_shared_ownership (ops : List SafeOp) (h : validOps makeSafe ops = true) :
    makeSafe.useCount = 1 ∧
    (safeRun (ops ++ [SafeOp.copy])).useCount = (safeRun ops).useCount + 1 ∧
    ((safeRun ops).alive = true ↔ 0 < (safeRun ops).useCount) := by
  refine ⟨rfl, ?_, ?_⟩
  · rw [safeRun, List.foldl_append]
    rfl
  · exact safe_alive_iff_aux ops makeSafe h (by simp [makeSafe])

/-- Witness for C1 (amended): the sequence copy–destroy–destroy is well
formed; after it the allocation is released (owner count zero and not
alive), and after the copy alone the count is two. -/
theorem safe_shared_ownership_witness :
    validOps makeSafe [SafeOp.copy, SafeOp.destroy, SafeOp.destroy] = true ∧
    ((safeRun [SafeOp.copy, SafeOp.destroy, SafeOp.destroy]).alive = true ↔
      0 < (safeRun [SafeOp.copy, SafeOp.destroy, SafeOp.destroy]).useCount) := by
  refine ⟨by decide, ?_⟩
  exact (safe_shared_ownership [SafeOp.copy, SafeOp.destroy, SafeOp.destroy] (by decide)).2.2

/-! ### Theorems about named-parameter lowering -/

theorem lookup_zip_map (params : List String) (f : String → Int) (n : String) :
    lookupArg (params.zip (params.map f)) n = if n ∈ params then some (f n) else none := by
  induction params with
  | nil => rfl
  | cons p ps ih =>
    show (if (p == n) then some (f p) else lookupArg (ps.zip (ps.map f)) n) = _
    by_cases hp : p = n
    · subst hp
      simp
    · have hb : (p == n) = false := beq_eq_false_iff_ne.mpr hp
      rw [if_neg (by simp [hp]), ih]
      by_cases hn : n ∈ ps
      · rw [if_pos hn, if_pos (List.mem_cons_of_mem p hn)]
      · rw [if_neg hn, if_neg (by simp [hn, Ne.symm hp])]

theorem lookupArg_not_supplied (args : List (String × Int)) (params : List String)
    (n : String) (hall : ∀ a ∈ args, a.1 ∈ params) (hn : n ∉ params) :
    lookupArg args n = none := by
  induction args with
  | nil => rfl
  | cons a args ih =>
    have hne : a.1 ≠ n := fun h => hn (h ▸ hall a (List.mem_cons_self a args))
    show (if (a.1 == n) then some a.2 else lookupArg args n) = none
    rw [if_neg (by simp [hne]), ih (fun b hb => hall b (List.mem_cons_of_mem a hb))]

/-- **C6.** For every named call `f(name = value, …)` in which each name
occurs exactly once and matches a declared parameter (the validation the
spec prescribes), lowering produces the positional argument list obtained by
reordering the supplied values into the callee's declared parameter order,
and the positional call binds exactly the environment of the named call —
so the lowered call computes the same result as the named call for every
function body.  Instantiated at `func add(a: int, b: int)`, the call
`add(b = 2, a = 3)` lowers to the positional call `add(3, 2)`. -/
theorem named_call_lowering (params : List String) (args : List (String × Int))
    (hv : validNamedCall params args = true) :
    lowerNamedCall params args =
      some (params.map (fun p => (lookupArg args p).getD 0)) ∧
    ∀ n : String,
      envOfPositional params (params.map (fun p => (lookupArg args p).getD 0)) n =
        envOfNamed args n := by
  constructor
  · rw [lowerNamedCall, if_pos hv]
  · intro n
    rw [envOfPositional, envOfNamed]
    rw [lookup_zip_map params (fun p => (lookupArg args p).getD 0) n]
    by_cases hn : n ∈ params
    · rw [if_pos hn]
      rfl
    · rw [if_neg hn]
      have hall : ∀ a ∈ args, a.1 ∈ params := by
        have h1 := (Bool.and_eq_true _ _).mp hv |>.1
        rw [List.all_eq_true] at h1
        intro a ha
        have := h1 a ha
        simpa using this
      rw [lookupArg_not_supplied args params n hall hn]

/-- Witness for C6 (spec §8, Example 2): `add(b = 2, a = 3)` is a valid named
call of `func add(a: int, b: int): int`; it lowers to the positional call
`add(3, 2)`, the two calls bind the same environment, and both compute
`add 3 2 = 5`. -/
theorem named_call_lowering_witness :
    lowerNamedCall ["a", "b"] [("b", 2), ("a", 3)] = some [3, 2] ∧
    envOfPositional ["a", "b"] [3, 2] "a" = envOfNamed [("b", 2), ("a", 3)] "a" ∧
    envOfPositional ["a", "b"] [3, 2] "b" = envOfNamed [("b", 2), ("a", 3)] "b" ∧
    add (envOfNamed [("b", 2), ("a", 3)] "a") (envOfNamed [("b", 2), ("a", 3)] "b") =
      add 3 2 := by
  have h := named_call_lowering ["a", "b"] [("b", 2), ("a", 3)] (by decide)
  exact ⟨by rw [h.1]; rfl, h.2 "a", h.2 "b", by decide⟩

/-! ### Round trip of the modelled Parser and pretty-printer

The development below proves that re-parsing the printed token stream of any
AST yields that AST back, by structural induction on the AST with explicit
size measures; the parser's recursion budgets are handled by the `PW`
predicate (success at every sufficiently large budget). -/

theorem sizeE_pos (e : Expr) : 1 ≤ sizeE e := by
  cases e <;> simp [sizeE]

theorem opText_not_delim (op : BinOp) :
    (opText op == "(") = false ∧ (opText op == "[") = false ∧
      (opText op == "!") = false ∧ (opText op == "await") = false := by
  cases op <;> exact ⟨rfl, rfl, rfl, rfl⟩

theorem opOfSym_opText (op : BinOp) : opOfSym (opText op) = some op := by
  cases op <;> rfl

theorem FollowClear.mono {p q : Nat} (h : p ≤ q) {rest : List Tok}
    (hf : FollowClear p rest) : FollowClear q rest :=
  ⟨fun op hop => lt_of_lt_of_le (hf.1 op hop) h, hf.2.1, hf.2.2⟩

theorem followClear_sym (p : Nat) (s : String) (r : List Tok)
    (h1 : opOfSym s = none) (h2 : (s == "(") = false) (h3 : (s == "[") = false) :
    FollowClear p (.sym s :: r) := by
  refine ⟨?_, ?_, ?_⟩
  · intro op hop
    rw [opHead, h1] at hop
    exact Option.noConfusion hop
  · simpa [startsWith] using h2
  · simpa [startsWith] using h3

theorem followClear_op (p : Nat) (op : BinOp) (r : List Tok) (h : opLv op < p) :
    FollowClear p (.sym (opText op) :: r) := by
  refine ⟨?_, ?_, ?_⟩
  · intro op' hop'
    rw [opHead, opOfSym_opText] at hop'
    cases hop'
    exact h
  · simpa [startsWith] using (opText_not_delim op).1
  · simpa [startsWith] using (opText_not_delim op).2.1

theorem followClear_nil (p : Nat) : FollowClear p [] := by
  exact ⟨fun op hop => Option.noConfusion hop, rfl, rfl⟩

theorem parseRest_stop (p : Nat) (acc : Expr) (rest : List Tok)
    (h : FollowClear p rest) :
    ∀ fuel, 1 ≤ fuel → parseRest fuel p acc rest = some (acc, rest) := by
  intro fuel hf
  obtain ⟨fuel, rfl⟩ : ∃ k, fuel = k + 1 := ⟨fuel - 1, by omega⟩
  cases rest with
  | nil => rfl
  | cons t r =>
    cases t with
    | sym s =>
      show (match opOfSym s with
            | some op =>
              if opLv op = p then
                match parseBin fuel (p + 1) r with
                | none => none
                | some (y, r₂) => parseRest fuel p (.bin op acc y) r₂
              else some (acc, .sym s :: r)
            | none => some (acc, .sym s :: r)) = some (acc, .sym s :: r)
      cases hop : opOfSym s with
      | none => rfl
      | some op =>
        have := h.1 op (by rw [opHead, hop])
        simp only []
        rw [if_neg (by omega)]
    | ident x => rfl
    | intTok n => rfl
    | floatTok w f => rfl
    | strTok s => rfl

theorem parseBin_succ (fuel p : Nat) (ts : List Tok) :
    parseBin (fuel + 1) p ts =
      if 5 ≤ p then parseUn fuel ts
      else
        match parseBin fuel (p + 1) ts with
        | none => none
        | some (x, r) => parseRest fuel p x r := rfl

theorem PW_un_to_bin5 {ts : List Tok} {v : Expr} {r : List Tok}
    (h : PW parseUn ts v r) : PW (fun f ts => parseBin f 5 ts) ts v r := by
  obtain ⟨n, hn⟩ := h
  refine ⟨n + 1, fun fuel hf => ?_⟩
  obtain ⟨fuel, rfl⟩ : ∃ k, fuel = k + 1 := ⟨fuel - 1, by omega⟩
  show parseBin (fuel + 1) 5 ts = some (v, r)
  rw [parseBin_succ, if_pos (by omega)]
  exact hn fuel (by omega)

theorem PW_bin5_to_un {ts : List Tok} {v : Expr} {r : List Tok}
    (h : PW (fun f ts => parseBin f 5 ts) ts v r) : PW parseUn ts v r := by
  obtain ⟨n, hn⟩ := h
  refine ⟨n, fun fuel hf => ?_⟩
  have h2 : parseBin (fuel + 1) 5 ts = some (v, r) := hn (fuel + 1) (by omega)
  rw [parseBin_succ, if_pos (by omega)] at h2
  exact h2

theorem parseBin_descend_aux (k : Nat) : ∀ (p : Nat), 1 ≤ p → p + k ≤ 5 →
    ∀ (e : Expr) (ts rest : List Tok),
      PW (fun f ts => parseBin f (p + k) ts) ts e rest → FollowClear p rest →
      PW (fun f ts => parseBin f p ts) ts e rest := by
  induction k with
  | zero => intro p _ _ e ts rest hPW _; simpa using hPW
  | succ k ih =>
    intro p h1 hk e ts rest hPW hfc
    have hPW' : PW (fun f ts => parseBin f (p + 1 + k) ts) ts e rest := by
      have h : p + 1 + k = p + (k + 1) := by omega
      rw [h]; exact hPW
    have step := ih (p + 1) (by omega) (by omega) e ts rest hPW' (hfc.mono (by omega))
    obtain ⟨n, hn⟩ := step
    refine ⟨n + 2, fun fuel hf => ?_⟩
    obtain ⟨fuel, rfl⟩ : ∃ m, fuel = m + 1 := ⟨fuel - 1, by omega⟩
    show parseBin (fuel + 1) p ts = some (e, rest)
    rw [parseBin_succ, if_neg (by omega),
      show parseBin fuel (p + 1) ts = some (e, rest) from hn fuel (by omega)]
    exact parseRest_stop p e rest hfc fuel (by omega)

theorem parseBin_descend (p q : Nat) (h1 : 1 ≤ p) (hpq : p ≤ q) (hq : q ≤ 5)
    (e : Expr) (ts rest : List Tok)
    (hPW : PW (fun f ts => parseBin f q ts) ts e rest) (hfc : FollowClear p rest) :
    PW (fun f ts => parseBin f p ts) ts e rest := by
  obtain ⟨k, rfl⟩ : ∃ k, q = p + k := ⟨q - p, by omega⟩
  exact parseBin_descend_aux k p h1 hq e ts rest hPW hfc

theorem printBareE_cons : ∀ (N : Nat) (e : Expr), sizeE e ≤ N → ∀ r : List Tok,
    ∃ t ts', printBareE e ++ r = t :: ts' ∧ exprStartTok t = true := by
  intro N
  induction N with
  | zero =>
    intro e he
    exact absurd (le_trans (sizeE_pos e) he) (by omega)
  | succ N ih =>
    intro e he r
    cases e with
    | intLit n => exact ⟨.intTok n, r, rfl, rfl⟩
    | floatLit w f => exact ⟨.floatTok w f, r, rfl, rfl⟩
    | strLit s => exact ⟨.strTok s, r, rfl, rfl⟩
    | var x => exact ⟨.ident x, r, rfl, rfl⟩
    | call f args => exact ⟨.ident f, _, rfl, rfl⟩
    | sliceE a lo hi => exact ⟨.ident a, _, rfl, rfl⟩
    | awaitE f => exact ⟨.sym "await", _, rfl, rfl⟩
    | un op x =>
      refine ⟨.sym (unText op), _, rfl, ?_⟩
      cases op <;> rfl
    | bin op l r₀ =>
      by_cases hc : lvE l < opLv op + 1
      · refine ⟨.sym "(", (printBareE l ++ [.sym ")"]) ++
          ((.sym (opText op) :: parensIf (lvE r₀ < opLv op + 1) (printBareE r₀)) ++ r),
          ?_, rfl⟩
        show (parensIf (lvE l < opLv op + 1) (printBareE l) ++ _) ++ r = _
        rw [parensIf, if_pos (by simpa using hc)]
        simp [List.append_assoc]
      · have hsz : sizeE l ≤ N := by
          have : sizeE (Expr.bin op l r₀) = sizeE l + sizeE r₀ + 1 := rfl
          have := sizeE_pos r₀
          omega
        obtain ⟨t, ts', heq, ht⟩ := ih l hsz
          ((.sym (opText op) :: parensIf (lvE r₀ < opLv op + 1) (printBareE r₀)) ++ r)
        refine ⟨t, ts', ?_, ht⟩
        show (parensIf (lvE l < opLv op + 1) (printBareE l) ++ _) ++ r = _
        rw [parensIf, if_neg (by simpa using hc), List.append_assoc]
        exact heq

theorem printE_cons (e : Expr) (ctx : Nat) (r : List Tok) :
    ∃ t ts', printE e ctx ++ r = t :: ts' ∧ exprStartTok t = true := by
  rw [printE, parensIf]
  by_cases hc : lvE e < ctx
  · rw [if_pos (by simpa using hc)]
    exact ⟨.sym "(", _, rfl, rfl⟩
  · rw [if_neg (by simpa using hc)]
    exact printBareE_cons (sizeE e) e le_rfl r

theorem startsWith_printE (s : String) (e : Expr) (ctx : Nat) (r : List Tok)
    (h1 : s ≠ "(") (h2 : s ≠ "!") (h3 : s ≠ "-") (h4 : s ≠ "await") :
    startsWith s (printE e ctx ++ r) = false := by
  obtain ⟨t, ts', heq, ht⟩ := printE_cons e ctx r
  rw [heq]
  cases t with
  | sym s' =>
    simp only [exprStartTok, Bool.or_eq_true, beq_iff_eq] at ht
    show (s' == s) = false
    rcases ht with ((rfl | rfl) | rfl) | rfl
    · exact beq_eq_false_iff_ne.mpr (Ne.symm h1)
    · exact beq_eq_false_iff_ne.mpr (Ne.symm h2)
    · exact beq_eq_false_iff_ne.mpr (Ne.symm h3)
    · exact beq_eq_false_iff_ne.mpr (Ne.symm h4)
  | ident x => rfl
  | intTok n => rfl
  | floatTok w f => rfl
  | strTok s' => rfl

theorem opLv_bounds (op : BinOp) : 1 ≤ opLv op ∧ opLv op ≤ 4 := by
  cases op <;> exact ⟨by decide, by decide⟩

theorem startsWith_cons_sym (s s' : String) (r : List Tok) :
    startsWith s (.sym s' :: r) = (s' == s) := rfl

theorem startsWith_nil (s : String) : startsWith s [] = false := rfl

theorem parseRest_cons (fuel p : Nat) (acc : Expr) (s : String) (r : List Tok) :
    parseRest (fuel + 1) p acc (.sym s :: r) =
      match opOfSym s with
      | some op =>
        if opLv op = p then
          match parseBin fuel (p + 1) r with
          | none => none
          | some (y, r₂) => parseRest fuel p (.bin op acc y) r₂
        else some (acc, .sym s :: r)
      | none => some (acc, .sym s :: r) := rfl

theorem parseUn_succ (fuel : Nat) (ts : List Tok) :
    parseUn (fuel + 1) ts =
      if startsWith "!" ts then
        match parseUn fuel ts.tail with
        | none => none
        | some (x, r) => some (.un .lnot x, r)
      else if startsWith "-" ts then
        match parseUn fuel ts.tail with
        | none => none
        | some (x, r) => some (.un .neg x, r)
      else parsePrim fuel ts := rfl

theorem parsePrim_int (fuel : Nat) (n : Nat) (r : List Tok) :
    parsePrim (fuel + 1) (.intTok n :: r) = some (.intLit n, r) := rfl

theorem parsePrim_float (fuel : Nat) (w f : String) (r : List Tok) :
    parsePrim (fuel + 1) (.floatTok w f :: r) = some (.floatLit w f, r) := rfl

theorem parsePrim_str (fuel : Nat) (s : String) (r : List Tok) :
    parsePrim (fuel + 1) (.strTok s :: r) = some (.strLit s, r) := rfl

theorem parsePrim_await (fuel : Nat) (r : List Tok) :
    parsePrim (fuel + 1) (.sym "await" :: r) = parseAwaitTail r := rfl

theorem parsePrim_paren (fuel : Nat) (r : List Tok) :
    parsePrim (fuel + 1) (.sym "(" :: r) =
      match parseBin fuel 1 r with
      | none => none
      | some (e, r₁) =>
        match expectSym ")" r₁ with
        | none => none
        | some r₂ => some (e, r₂) := rfl

theorem parsePrim_ident (fuel : Nat) (f : String) (r : List Tok) :
    parsePrim (fuel + 1) (.ident f :: r) = parseIdentTail fuel f r := rfl

theorem parseIdentTail_paren (fuel : Nat) (f : String) (r : List Tok) :
    parseIdentTail (fuel + 1) f (.sym "(" :: r) =
      (if startsWith ")" r then some (.call f [], r.tail)
       else
        match parseBin fuel 1 r with
        | none => none
        | some (a, r₁) =>
          match parseArgsRest fuel r₁ with
          | none => none
          | some (as, r₂) =>
            match expectSym ")" r₂ with
            | none => none
            | some r₃ => some (.call f (a :: as), r₃)) := rfl

theorem parseIdentTail_brack (fuel : Nat) (f : String) (r : List Tok) :
    parseIdentTail (fuel + 1) f (.sym "[" :: r) = parseSliceTail f r := rfl

theorem parseIdentTail_var (fuel : Nat) (f : String) (ts : List Tok)
    (h1 : startsWith "(" ts = false) (h2 : startsWith "[" ts = false) :
    parseIdentTail (fuel + 1) f ts = some (.var f, ts) := by
  cases ts with
  | nil => rfl
  | cons t r =>
    cases t with
    | ident x => rfl
    | intTok n => rfl
    | floatTok w f' => rfl
    | strTok s => rfl
    | sym s =>
      rw [startsWith_cons_sym] at h1 h2
      rw [parseIdentTail.eq_def]
      split
      · rename_i heq
        exact absurd heq (by omega)
      · split
        · rename_i heq
          injection heq with ha hb
          injection ha with ha
          simp [ha] at h1
        · rename_i heq
          injection heq with ha hb
          injection ha with ha
          simp [ha] at h2
        · rfl

theorem parseArgsRest_succ (fuel : Nat) (ts : List Tok) :
    parseArgsRest (fuel + 1) ts =
      if startsWith "," ts then
        match parseBin fuel 1 ts.tail with
        | none => none
        | some (a, r₁) =>
          match parseArgsRest fuel r₁ with
          | none => none
          | some (as, r₂) => some (a :: as, r₂)
      else some ([], ts) := rfl

theorem parseRest_cons_op (fuel : Nat) (acc : Expr) (op : BinOp) (r : List Tok) :
    parseRest (fuel + 1) (opLv op) acc (.sym (opText op) :: r) =
      match parseBin fuel (opLv op + 1) r with
      | none => none
      | some (y, r₂) => parseRest fuel (opLv op) (.bin op acc y) r₂ := by
  cases op <;> rfl

theorem printE_of_ge (e : Expr) (p : Nat) (h : ¬ lvE e < p) :
    printE e p = printBareE e := by
  rw [printE, parensIf, if_neg (by simpa using h)]

theorem printE_of_lt (e : Expr) (p : Nat) (rest : List Tok) (h : lvE e < p) :
    printE e p ++ rest = .sym "(" :: (printBareE e ++ (.sym ")" :: rest)) := by
  rw [printE, parensIf, if_pos (by simpa using h)]
  simp [List.append_assoc]

theorem build_un (op : UnOp) (x : Expr) (rest : List Tok)
    (hx : PW parseUn (printE x 5 ++ rest) x rest) :
    PW parseUn (printBareE (.un op x) ++ rest) (.un op x) rest := by
  obtain ⟨n, hn⟩ := hx
  refine ⟨n + 1, fun fuel hf => ?_⟩
  obtain ⟨f1, rfl⟩ : ∃ m, fuel = m + 1 := ⟨fuel - 1, by omega⟩
  have htok : printBareE (.un op x) ++ rest = .sym (unText op) :: (printE x 5 ++ rest) := by
    show (.sym (unText op) :: parensIf (lvE x < 5) (printBareE x)) ++ rest = _
    rw [printE]
    rfl
  rw [htok]
  cases op with
  | lnot =>
    show parseUn (f1 + 1) (.sym "!" :: (printE x 5 ++ rest)) = _
    rw [show parseUn (f1 + 1) (.sym "!" :: (printE x 5 ++ rest)) =
        (match parseUn f1 (printE x 5 ++ rest) with
         | none => none
         | some (x', r) => some (.un .lnot x', r)) from rfl,
      show parseUn f1 (printE x 5 ++ rest) = some (x, rest) from hn f1 (by omega)]
  | neg =>
    show parseUn (f1 + 1) (.sym "-" :: (printE x 5 ++ rest)) = _
    rw [show parseUn (f1 + 1) (.sym "-" :: (printE x 5 ++ rest)) =
        (match parseUn f1 (printE x 5 ++ rest) with
         | none => none
         | some (x', r) => some (.un .neg x', r)) from rfl,
      show parseUn f1 (printE x 5 ++ rest) = some (x, rest) from hn f1 (by omega)]

theorem build_paren (e : Expr) (rest : List Tok)
    (h : PW (fun f ts => parseBin f 1 ts)
      (printBareE e ++ (.sym ")" :: rest)) e (.sym ")" :: rest)) :
    PW parseUn (.sym "(" :: (printBareE e ++ (.sym ")" :: rest))) e rest := by
  obtain ⟨n, hn⟩ := h
  refine ⟨n + 2, fun fuel hf => ?_⟩
  obtain ⟨f1, rfl⟩ : ∃ m, fuel = m + 2 := ⟨fuel - 2, by omega⟩
  rw [show parseUn (f1 + 1 + 1) (.sym "(" :: (printBareE e ++ (.sym ")" :: rest))) =
      parsePrim (f1 + 1) (.sym "(" :: (printBareE e ++ (.sym ")" :: rest))) from rfl,
    parsePrim_paren,
    show parseBin f1 1 (printBareE e ++ (.sym ")" :: rest)) = some (e, .sym ")" :: rest)
      from hn f1 (by omega)]
  rfl

theorem build_bin (op : BinOp) (l r₀ : Expr) (rest : List Tok)
    (hfc : FollowClear (opLv op) rest)
    (hl : PW (fun f ts => parseBin f (opLv op + 1) ts)
      (printE l (opLv op + 1) ++ (.sym (opText op) :: (printE r₀ (opLv op + 1) ++ rest)))
      l (.sym (opText op) :: (printE r₀ (opLv op + 1) ++ rest)))
    (hr : PW (fun f ts => parseBin f (opLv op + 1) ts)
      (printE r₀ (opLv op + 1) ++ rest) r₀ rest) :
    PW (fun f ts => parseBin f (opLv op) ts)
      (printBareE (.bin op l r₀) ++ rest) (.bin op l r₀) rest := by
  obtain ⟨n₁, h₁⟩ := hl
  obtain ⟨n₂, h₂⟩ := hr
  refine ⟨n₁ + n₂ + 3, fun fuel hf => ?_⟩
  obtain ⟨f1, rfl⟩ : ∃ m, fuel = m + 1 := ⟨fuel - 1, by omega⟩
  have htok : printBareE (.bin op l r₀) ++ rest =
      printE l (opLv op + 1) ++ (.sym (opText op) :: (printE r₀ (opLv op + 1) ++ rest)) := by
    show (parensIf (lvE l < opLv op + 1) (printBareE l) ++
      (.sym (opText op) :: parensIf (lvE r₀ < opLv op + 1) (printBareE r₀))) ++ rest = _
    rw [printE, printE]
    simp [List.append_assoc]
  show parseBin (f1 + 1) (opLv op) (printBareE (.bin op l r₀) ++ rest) = _
  rw [htok, parseBin_succ, if_neg (by have := opLv_bounds op; omega),
    show parseBin f1 (opLv op + 1)
        (printE l (opLv op + 1) ++ (.sym (opText op) :: (printE r₀ (opLv op + 1) ++ rest))) =
      some (l, .sym (opText op) :: (printE r₀ (opLv op + 1) ++ rest)) from h₁ f1 (by omega)]
  obtain ⟨f2, rfl⟩ : ∃ m, f1 = m + 1 := ⟨f1 - 1, by omega⟩
  show parseRest (f2 + 1) (opLv op) l
    (.sym (opText op) :: (printE r₀ (opLv op + 1) ++ rest)) = _
  rw [parseRest_cons_op,
    show parseBin f2 (opLv op + 1) (printE r₀ (opLv op + 1) ++ rest) = some (r₀, rest)
      from h₂ f2 (by omega)]
  show parseRest f2 (opLv op) (.bin op l r₀) rest = _
  exact parseRest_stop (opLv op) (.bin op l r₀) rest hfc f2 (by omega)

theorem followClear_args (p : Nat) (as : List Expr) (rest : List Tok) :
    FollowClear p (printArgsMore as ++ (.sym ")" :: rest)) := by
  cases as with
  | nil => exact followClear_sym p ")" rest rfl rfl rfl
  | cons a as =>
    show FollowClear p ((.sym "," :: _) ++ _)
    exact followClear_sym p "," _ rfl rfl rfl

theorem argsRest_nil (rest : List Tok) :
    PW parseArgsRest (printArgsMore [] ++ (.sym ")" :: rest)) [] (.sym ")" :: rest) := by
  refine ⟨1, fun fuel hf => ?_⟩
  obtain ⟨f1, rfl⟩ : ∃ m, fuel = m + 1 := ⟨fuel - 1, by omega⟩
  rfl

theorem prim_finish (e : Expr) (p : Nat) (rest : List Tok) (hp1 : 1 ≤ p) (hp5 : p ≤ 5)
    (hlv : 5 ≤ lvE e) (hfc : FollowClear p rest)
    (hexact : PW parseUn (printBareE e ++ rest) e rest) :
    PW (fun f ts => parseBin f p ts) (printE e p ++ rest) e rest := by
  rw [printE_of_ge e p (by omega)]
  exact parseBin_descend p 5 hp1 hp5 le_rfl e _ rest (PW_un_to_bin5 hexact) hfc

theorem expr_roundtrip : ∀ (N : Nat),
    (∀ e, sizeE e ≤ N → ∀ p rest, 1 ≤ p → p ≤ 5 → FollowClear p rest →
      PW (fun f ts => parseBin f p ts) (printE e p ++ rest) e rest) ∧
    (∀ as, sizeArgs as ≤ N → ∀ rest,
      PW parseArgsRest (printArgsMore as ++ (.sym ")" :: rest)) as (.sym ")" :: rest)) := by
  intro N
  induction N with
  | zero =>
    constructor
    · intro e he
      exact absurd (le_trans (sizeE_pos e) he) (by omega)
    · intro as ha rest
      cases as with
      | nil => exact argsRest_nil rest
      | cons a as =>
        have h1 : sizeArgs (a :: as) = sizeE a + sizeArgs as + 1 := rfl
        have h2 := sizeE_pos a
        exact absurd ha (by omega)
  | succ N ih =>
    obtain ⟨ihE, ihA⟩ := ih
    constructor
    · intro e he p rest hp1 hp5 hfc
      cases e with
      | intLit n =>
        refine prim_finish _ p rest hp1 hp5 (by show (5:Nat) ≤ 6; omega) hfc ?_
        refine ⟨2, fun fuel hf => ?_⟩
        obtain ⟨m, rfl⟩ : ∃ m, fuel = m + 2 := ⟨fuel - 2, by omega⟩
        rfl
      | floatLit w fr =>
        refine prim_finish _ p rest hp1 hp5 (by show (5:Nat) ≤ 6; omega) hfc ?_
        refine ⟨2, fun fuel hf => ?_⟩
        obtain ⟨m, rfl⟩ : ∃ m, fuel = m + 2 := ⟨fuel - 2, by omega⟩
        rfl
      | strLit s =>
        refine prim_finish _ p rest hp1 hp5 (by show (5:Nat) ≤ 6; omega) hfc ?_
        refine ⟨2, fun fuel hf => ?_⟩
        obtain ⟨m, rfl⟩ : ∃ m, fuel = m + 2 := ⟨fuel - 2, by omega⟩
        rfl
      | awaitE f =>
        refine prim_finish _ p rest hp1 hp5 (by show (5:Nat) ≤ 6; omega) hfc ?_
        refine ⟨2, fun fuel hf => ?_⟩
        obtain ⟨m, rfl⟩ : ∃ m, fuel = m + 2 := ⟨fuel - 2, by omega⟩
        rfl
      | sliceE a lo hi =>
        refine prim_finish _ p rest hp1 hp5 (by show (5:Nat) ≤ 6; omega) hfc ?_
        refine ⟨3, fun fuel hf => ?_⟩
        obtain ⟨m, rfl⟩ : ∃ m, fuel = m + 3 := ⟨fuel - 3, by omega⟩
        rfl
      | var x =>
        refine prim_finish _ p rest hp1 hp5 (by show (5:Nat) ≤ 6; omega) hfc ?_
        refine ⟨3, fun fuel hf => ?_⟩
        obtain ⟨m, rfl⟩ : ∃ m, fuel = m + 3 := ⟨fuel - 3, by omega⟩
        rw [show parseUn (m + 3) (printBareE (.var x) ++ rest) =
            parseIdentTail (m + 1) x rest from rfl]
        exact parseIdentTail_var m x rest hfc.2.1 hfc.2.2
      | un op x =>
        have hszx : sizeE x ≤ N := by
          have h : sizeE (Expr.un op x) = sizeE x + 1 := rfl
          omega
        have hx : PW parseUn (printE x 5 ++ rest) x rest :=
          PW_bin5_to_un (ihE x hszx 5 rest (by omega) le_rfl (hfc.mono hp5))
        exact prim_finish _ p rest hp1 hp5 (by show (5:Nat) ≤ 5; omega) hfc (build_un op x rest hx)
      | bin op l r₀ =>
        have hb := opLv_bounds op
        have hsz : sizeE (Expr.bin op l r₀) = sizeE l + sizeE r₀ + 1 := rfl
        have hszl : sizeE l ≤ N := by have := sizeE_pos r₀; omega
        have hszr : sizeE r₀ ≤ N := by have := sizeE_pos l; omega
        have hlv : lvE (Expr.bin op l r₀) = opLv op := rfl
        have hexact : ∀ rest', FollowClear (opLv op) rest' →
            PW (fun f ts => parseBin f (opLv op) ts)
              (printBareE (.bin op l r₀) ++ rest') (.bin op l r₀) rest' := by
          intro rest' hq'
          refine build_bin op l r₀ rest' hq' ?_ ?_
          · exact ihE l hszl (opLv op + 1) _ (by omega) (by omega)
              (followClear_op (opLv op + 1) op _ (by omega))
          · exact ihE r₀ hszr (opLv op + 1) rest' (by omega) (by omega)
              (hq'.mono (by omega))
        by_cases hlt : lvE (Expr.bin op l r₀) < p
        · have hbare1 : PW (fun f ts => parseBin f 1 ts)
              (printBareE (.bin op l r₀) ++ (.sym ")" :: rest)) (.bin op l r₀)
              (.sym ")" :: rest) :=
            parseBin_descend 1 (opLv op) le_rfl (by omega) (by omega) _ _ _
              (hexact (.sym ")" :: rest) (followClear_sym (opLv op) ")" rest rfl rfl rfl))
              (followClear_sym 1 ")" rest rfl rfl rfl)
          have hun := build_paren (.bin op l r₀) rest hbare1
          rw [show printE (.bin op l r₀) p ++ rest =
              .sym "(" :: (printBareE (.bin op l r₀) ++ (.sym ")" :: rest))
            from printE_of_lt _ p rest hlt]
          exact parseBin_descend p 5 hp1 hp5 le_rfl _ _ rest (PW_un_to_bin5 hun) hfc
        · rw [printE_of_ge _ p hlt]
          exact parseBin_descend p (opLv op) hp1 (by omega) (by omega) _ _ rest
            (hexact rest (hfc.mono (by omega))) hfc
      | call f args =>
        cases args with
        | nil =>
          refine prim_finish _ p rest hp1 hp5 (by show (5:Nat) ≤ 6; omega) hfc ?_
          refine ⟨3, fun fuel hf => ?_⟩
          obtain ⟨m, rfl⟩ : ∃ m, fuel = m + 3 := ⟨fuel - 3, by omega⟩
          rfl
        | cons a as =>
          have hsz : sizeE (Expr.call f (a :: as)) = sizeE a + sizeArgs as + 1 + 1 := rfl
          have hsza : sizeE a ≤ N := by omega
          have hszas : sizeArgs as ≤ N := by have := sizeE_pos a; omega
          refine prim_finish _ p rest hp1 hp5 (by show (5:Nat) ≤ 6; omega) hfc ?_
          obtain ⟨n₁, h₁⟩ := ihE a hsza 1 (printArgsMore as ++ (.sym ")" :: rest)) le_rfl
            (by omega) (followClear_args 1 as rest)
          obtain ⟨n₂, h₂⟩ := ihA as hszas rest
          refine ⟨n₁ + n₂ + 4, fun fuel hf => ?_⟩
          obtain ⟨m, rfl⟩ : ∃ m, fuel = m + 3 := ⟨fuel - 3, by omega⟩
          have htok : printBareE (.call f (a :: as)) ++ rest =
              .ident f :: .sym "(" ::
                (printE a 1 ++ (printArgsMore as ++ (.sym ")" :: rest))) := by
            show (.ident f :: .sym "(" ::
              (parensIf (lvE a < 1) (printBareE a) ++ printArgsMore as) ++ [.sym ")"]) ++ rest = _
            rw [printE]
            simp [List.append_assoc]
          rw [htok,
            show parseUn (m + 3) (.ident f :: .sym "(" ::
                (printE a 1 ++ (printArgsMore as ++ (.sym ")" :: rest)))) =
              parseIdentTail (m + 1) f (.sym "(" ::
                (printE a 1 ++ (printArgsMore as ++ (.sym ")" :: rest)))) from rfl,
            parseIdentTail_paren,
            if_neg (by
              rw [startsWith_printE ")" a 1 _ (by decide) (by decide) (by decide) (by decide)]
              exact Bool.false_ne_true),
            show parseBin m 1 (printE a 1 ++ (printArgsMore as ++ (.sym ")" :: rest))) =
              some (a, printArgsMore as ++ (.sym ")" :: rest)) from h₁ m (by omega)]
          show (match parseArgsRest m (printArgsMore as ++ (.sym ")" :: rest)) with
                | none => none
                | some (as', r₂) =>
                  match expectSym ")" r₂ with
                  | none => none
                  | some r₃ => some (Expr.call f (a :: as'), r₃)) = _
          rw [show parseArgsRest m (printArgsMore as ++ (.sym ")" :: rest)) =
              some (as, .sym ")" :: rest) from h₂ m (by omega)]
          rfl
    · intro as ha rest
      cases as with
      | nil => exact argsRest_nil rest
      | cons a as =>
        have hsz : sizeArgs (a :: as) = sizeE a + sizeArgs as + 1 := rfl
        obtain ⟨n₁, h₁⟩ := ihE a (by omega) 1 (printArgsMore as ++ (.sym ")" :: rest)) le_rfl
          (by omega) (followClear_args 1 as rest)
        obtain ⟨n₂, h₂⟩ := ihA as (by omega) rest
        refine ⟨n₁ + n₂ + 2, fun fuel hf => ?_⟩
        obtain ⟨f1, rfl⟩ : ∃ m, fuel = m + 1 := ⟨fuel - 1, by omega⟩
        have htok : printArgsMore (a :: as) ++ (.sym ")" :: rest) =
            .sym "," :: (printE a 1 ++ (printArgsMore as ++ (.sym ")" :: rest))) := by
          show (.sym "," :: (parensIf (lvE a < 1) (printBareE a) ++ printArgsMore as)) ++ _ = _
          rw [printE]
          simp [List.append_assoc]
        rw [htok, parseArgsRest_succ,
          if_pos (show startsWith ","
            (.sym "," :: (printE a 1 ++ (printArgsMore as ++ (.sym ")" :: rest)))) = true
            from rfl),
          List.tail_cons,
          show parseBin f1 1 (printE a 1 ++ (printArgsMore as ++ (.sym ")" :: rest))) =
            some (a, printArgsMore as ++ (.sym ")" :: rest)) from h₁ f1 (by omega)]
        show (match parseArgsRest f1 (printArgsMore as ++ (.sym ")" :: rest)) with
              | none => none
              | some (as', r₂) => some (a :: as', r₂)) = _
        rw [show parseArgsRest f1 (printArgsMore as ++ (.sym ")" :: rest)) =
            some (as, .sym ")" :: rest) from h₂ f1 (by omega)]

theorem printE_parses (e : Expr) (p : Nat) (rest : List Tok) (hp1 : 1 ≤ p) (hp5 : p ≤ 5)
    (hfc : FollowClear p rest) :
    PW (fun f ts => parseBin f p ts) (printE e p ++ rest) e rest :=
  (expr_roundtrip (sizeE e)).1 e le_rfl p rest hp1 hp5 hfc

/-! #### Success equations for the statement parsers -/

theorem parseStmt_succ (fuel : Nat) (ts : List Tok) :
    parseStmt (fuel + 1) ts =
      (if startsWith "let" ts then parseLetTail fuel ts.tail
       else if startsWith "const" ts then parseConstTail fuel ts.tail
       else if startsWith "func" ts then
         match parseFuncTail fuel ts.tail with
         | none => none
         | some ((f, ps, rt, b), r₁) => some (.funcDecl f ps rt b, r₁)
       else if startsWith "if" ts then parseIfTail fuel ts.tail
       else if startsWith "for" ts then parseForTail fuel ts.tail
       else if startsWith "while" ts then
         match parseBin fuel 1 ts.tail with
         | none => none
         | some (c, r₁) =>
           match parseBlockTok fuel r₁ with
           | none => none
           | some (b, r₂) => some (.whileStmt c b, r₂)
       else if startsWith "class" ts then parseClassTail fuel ts.tail
       else if startsWith "test" ts then parseTestTail fuel ts.tail
       else if startsWith "assert" ts then parseAssertTail fuel ts.tail
       else if startsWith "async" ts then parseAsyncTail fuel ts.tail
       else if startsWith "thread" ts then parseThreadTail fuel ts.tail
       else
         match parseBin fuel 1 ts with
         | none => none
         | some (e, r₁) =>
           match expectSym ";" r₁ with
           | none => none
           | some r₂ => some (.exprStmt e, r₂)) := rfl

theorem parseStmt_expr_ok (fuel : Nat) (ts : List Tok) (e : Expr) (r₁ r₂ : List Tok)
    (k1 : startsWith "let" ts = false) (k2 : startsWith "const" ts = false)
    (k3 : startsWith "func" ts = false) (k4 : startsWith "if" ts = false)
    (k5 : startsWith "for" ts = false) (k6 : startsWith "while" ts = false)
    (k7 : startsWith "class" ts = false) (k8 : startsWith "test" ts = false)
    (k9 : startsWith "assert" ts = false) (k10 : startsWith "async" ts = false)
    (k11 : startsWith "thread" ts = false)
    (h1 : parseBin fuel 1 ts = some (e, r₁)) (h2 : expectSym ";" r₁ = some r₂) :
    parseStmt (fuel + 1) ts = some (.exprStmt e, r₂) := by
  rw [parseStmt_succ, if_neg (by simp [k1]), if_neg (by simp [k2]), if_neg (by simp [k3]),
    if_neg (by simp [k4]), if_neg (by simp [k5]), if_neg (by simp [k6]),
    if_neg (by simp [k7]), if_neg (by simp [k8]), if_neg (by simp [k9]),
    if_neg (by simp [k10]), if_neg (by simp [k11]), h1]
  show (match expectSym ";" r₁ with
        | none => none
        | some r₂ => some (Stmt.exprStmt e, r₂)) = _
  rw [h2]

theorem parseLetTail_ann_ok (fuel : Nat) (x t : String) (r : List Tok) (e : Expr)
    (r₁ r₂ : List Tok)
    (h1 : parseBin fuel 1 r = some (e, r₁)) (h2 : expectSym ";" r₁ = some r₂) :
    parseLetTail (fuel + 1) (.ident x :: .sym ":" :: .ident t :: .sym "=" :: r) =
      some (.letDecl x (some t) e, r₂) := by
  rw [show parseLetTail (fuel + 1) (.ident x :: .sym ":" :: .ident t :: .sym "=" :: r) =
      (match parseBin fuel 1 r with
       | none => none
       | some (e, r₁) =>
         match expectSym ";" r₁ with
         | none => none
         | some r₂ => some (Stmt.letDecl x (some t) e, r₂)) from rfl, h1]
  show (match expectSym ";" r₁ with
        | none => none
        | some r₂ => some (Stmt.letDecl x (some t) e, r₂)) = _
  rw [h2]

theorem parseLetTail_plain_ok (fuel : Nat) (x : String) (r : List Tok) (e : Expr)
    (r₁ r₂ : List Tok) (hs : startsWith "safe" r = false)
    (h1 : parseBin fuel 1 r = some (e, r₁)) (h2 : expectSym ";" r₁ = some r₂) :
    parseLetTail (fuel + 1) (.ident x :: .sym "=" :: r) = some (.letDecl x none e, r₂) := by
  rw [show parseLetTail (fuel + 1) (.ident x :: .sym "=" :: r) =
      (if startsWith "safe" r then parseSafeTail fuel x r.tail
       else
        match parseBin fuel 1 r with
        | none => none
        | some (e, r₁) =>
          match expectSym ";" r₁ with
          | none => none
          | some r₂ => some (Stmt.letDecl x none e, r₂)) from rfl,
    if_neg (by simp [hs]), h1]
  show (match expectSym ";" r₁ with
        | none => none
        | some r₂ => some (Stmt.letDecl x none e, r₂)) = _
  rw [h2]

theorem parseSafeTail_some_ok (fuel : Nat) (x t : String) (r : List Tok) (e : Expr)
    (r₁ r₂ r₃ : List Tok) (hnp : startsWith ")" r = false)
    (h1 : parseBin fuel 1 r = some (e, r₁)) (h2 : expectSym ")" r₁ = some r₂)
    (h3 : expectSym ";" r₂ = some r₃) :
    parseSafeTail (fuel + 1) x (.sym "<" :: .ident t :: .sym ">" :: .sym "(" :: r) =
      some (.safeDecl x t (some e), r₃) := by
  rw [show parseSafeTail (fuel + 1) x (.sym "<" :: .ident t :: .sym ">" :: .sym "(" :: r) =
      (if startsWith ")" r then
        match expectSym ";" r.tail with
        | none => none
        | some r₂ => some (Stmt.safeDecl x t none, r₂)
       else
        match parseBin fuel 1 r with
        | none => none
        | some (e, r₂) =>
          match expectSym ")" r₂ with
          | none => none
          | some r₃ =>
            match expectSym ";" r₃ with
            | none => none
            | some r₄ => some (Stmt.safeDecl x t (some e), r₄)) from rfl,
    if_neg (by simp [hnp]), h1]
  show (match expectSym ")" r₁ with
        | none => none
        | some r₃ =>
          match expectSym ";" r₃ with
          | none => none
          | some r₄ => some (Stmt.safeDecl x t (some e), r₄)) = _
  rw [h2]
  show (match expectSym ";" r₂ with
        | none => none
        | some r₄ => some (Stmt.safeDecl x t (some e), r₄)) = _
  rw [h3]

theorem parseSafeTail_none_ok (fuel : Nat) (x t : String) (rest : List Tok) :
    parseSafeTail (fuel + 1) x
        (.sym "<" :: .ident t :: .sym ">" :: .sym "(" :: .sym ")" :: .sym ";" :: rest) =
      some (.safeDecl x t none, rest) := rfl

theorem parseConstTail_ann_ok (fuel : Nat) (x t : String) (r : List Tok) (e : Expr)
    (r₁ r₂ : List Tok)
    (h1 : parseBin fuel 1 r = some (e, r₁)) (h2 : expectSym ";" r₁ = some r₂) :
    parseConstTail (fuel + 1) (.ident x :: .sym ":" :: .ident t :: .sym "=" :: r) =
      some (.constDecl x (some t) e, r₂) := by
  rw [show parseConstTail (fuel + 1) (.ident x :: .sym ":" :: .ident t :: .sym "=" :: r) =
      (match parseBin fuel 1 r with
       | none => none
       | some (e, r₁) =>
         match expectSym ";" r₁ with
         | none => none
         | some r₂ => some (Stmt.constDecl x (some t) e, r₂)) from rfl, h1]
  show (match expectSym ";" r₁ with
        | none => none
        | some r₂ => some (Stmt.constDecl x (some t) e, r₂)) = _
  rw [h2]

theorem parseConstTail_plain_ok (fuel : Nat) (x : String) (r : List Tok) (e : Expr)
    (r₁ r₂ : List Tok)
    (h1 : parseBin fuel 1 r = some (e, r₁)) (h2 : expectSym ";" r₁ = some r₂) :
    parseConstTail (fuel + 1) (.ident x :: .sym "=" :: r) = some (.constDecl x none e, r₂) := by
  rw [show parseConstTail (fuel + 1) (.ident x :: .sym "=" :: r) =
      (match parseBin fuel 1 r with
       | none => none
       | some (e, r₁) =>
         match expectSym ";" r₁ with
         | none => none
         | some r₂ => some (Stmt.constDecl x none e, r₂)) from rfl, h1]
  show (match expectSym ";" r₁ with
        | none => none
        | some r₂ => some (Stmt.constDecl x none e, r₂)) = _
  rw [h2]

theorem parseIfTail_some_ok (fuel : Nat) (ts : List Tok) (c : Expr) (tb eb : Block)
    (r₁ r₂ r₃ : List Tok)
    (h1 : parseBin fuel 1 ts = some (c, r₁)) (h2 : parseBlockTok fuel r₁ = some (tb, r₂))
    (he : startsWith "else" r₂ = true) (h3 : parseBlockTok fuel r₂.tail = some (eb, r₃)) :
    parseIfTail (fuel + 1) ts = some (.ifStmt c tb (some eb), r₃) := by
  rw [show parseIfTail (fuel + 1) ts =
      (match parseBin fuel 1 ts with
       | none => none
       | some (c, r₁) =>
         match parseBlockTok fuel r₁ with
         | none => none
         | some (tb, r₂) =>
           if startsWith "else" r₂ then
             match parseBlockTok fuel r₂.tail with
             | none => none
             | some (eb, r₃) => some (Stmt.ifStmt c tb (some eb), r₃)
           else some (Stmt.ifStmt c tb none, r₂)) from rfl, h1]
  show (match parseBlockTok fuel r₁ with
        | none => none
        | some (tb, r₂) =>
          if startsWith "else" r₂ then
            match parseBlockTok fuel r₂.tail with
            | none => none
            | some (eb, r₃) => some (Stmt.ifStmt c tb (some eb), r₃)
          else some (Stmt.ifStmt c tb none, r₂)) = _
  rw [h2]
  show (if startsWith "else" r₂ then
          match parseBlockTok fuel r₂.tail with
          | none => none
          | some (eb, r₃) => some (Stmt.ifStmt c tb (some eb), r₃)
        else some (Stmt.ifStmt c tb none, r₂)) = _
  rw [if_pos (by simp [he]), h3]

theorem parseIfTail_none_ok (fuel : Nat) (ts : List Tok) (c : Expr) (tb : Block)
    (r₁ r₂ : List Tok)
    (h1 : parseBin fuel 1 ts = some (c, r₁)) (h2 : parseBlockTok fuel r₁ = some (tb, r₂))
    (he : startsWith "else" r₂ = false) :
    parseIfTail (fuel + 1) ts = some (.ifStmt c tb none, r₂) := by
  rw [show parseIfTail (fuel + 1) ts =
      (match parseBin fuel 1 ts with
       | none => none
       | some (c, r₁) =>
         match parseBlockTok fuel r₁ with
         | none => none
         | some (tb, r₂) =>
           if startsWith "else" r₂ then
             match parseBlockTok fuel r₂.tail with
             | none => none
             | some (eb, r₃) => some (Stmt.ifStmt c tb (some eb), r₃)
           else some (Stmt.ifStmt c tb none, r₂)) from rfl, h1]
  show (match parseBlockTok fuel r₁ with
        | none => none
        | some (tb, r₂) =>
          if startsWith "else" r₂ then
            match parseBlockTok fuel r₂.tail with
            | none => none
            | some (eb, r₃) => some (Stmt.ifStmt c tb (some eb), r₃)
          else some (Stmt.ifStmt c tb none, r₂)) = _
  rw [h2]
  show (if startsWith "else" r₂ then
          match parseBlockTok fuel r₂.tail with
          | none => none
          | some (eb, r₃) => some (Stmt.ifStmt c tb (some eb), r₃)
        else some (Stmt.ifStmt c tb none, r₂)) = _
  rw [if_neg (by simp [he])]

theorem parseForTail_some_ok (fuel : Nat) (v : String) (r : List Tok) (lo hi st : Expr)
    (b : Block) (r₁ r₂ r₃ r₄ r₅ r₆ : List Tok)
    (h1 : parseBin fuel 1 r = some (lo, r₁)) (h2 : expectSym "," r₁ = some r₂)
    (h3 : parseBin fuel 1 r₂ = some (hi, r₃)) (hc : startsWith "," r₃ = true)
    (h4 : parseBin fuel 1 r₃.tail = some (st, r₄)) (h5 : expectSym ")" r₄ = some r₅)
    (h6 : parseBlockTok fuel r₅ = some (b, r₆)) :
    parseForTail (fuel + 1) (.ident v :: .sym "in" :: .sym "range" :: .sym "(" :: r) =
      some (.forStmt v lo hi (some st) b, r₆) := by
  rw [show parseForTail (fuel + 1) (.ident v :: .sym "in" :: .sym "range" :: .sym "(" :: r) =
      (match parseBin fuel 1 r with
       | none => none
       | some (lo, r₁) =>
         match expectSym "," r₁ with
         | none => none
         | some r₂ =>
           match parseBin fuel 1 r₂ with
           | none => none
           | some (hi, r₃) =>
             if startsWith "," r₃ then
               match parseBin fuel 1 r₃.tail with
               | none => none
               | some (st, r₄) =>
                 match expectSym ")" r₄ with
                 | none => none
                 | some r₅ =>
                   match parseBlockTok fuel r₅ with
                   | none => none
                   | some (b, r₆) => some (Stmt.forStmt v lo hi (some st) b, r₆)
             else
               match expectSym ")" r₃ with
               | none => none
               | some r₄ =>
                 match parseBlockTok fuel r₄ with
                 | none => none
                 | some (b, r₅) => some (Stmt.forStmt v lo hi none b, r₅)) from rfl, h1]
  show (match expectSym "," r₁ with
        | none => none
        | some r₂ =>
          match parseBin fuel 1 r₂ with
          | none => none
          | some (hi, r₃) =>
            if startsWith "," r₃ then
              match parseBin fuel 1 r₃.tail with
              | none => none
              | some (st, r₄) =>
                match expectSym ")" r₄ with
                | none => none
                | some r₅ =>
                  match parseBlockTok fuel r₅ with
                  | none => none
                  | some (b, r₆) => some (Stmt.forStmt v lo hi (some st) b, r₆)
            else
              match expectSym ")" r₃ with
              | none => none
              | some r₄ =>
                match parseBlockTok fuel r₄ with
                | none => none
                | some (b, r₅) => some (Stmt.forStmt v lo hi none b, r₅)) = _
  rw [h2]
  show (match parseBin fuel 1 r₂ with
        | none => none
        | some (hi, r₃) =>
          if startsWith "," r₃ then
            match parseBin fuel 1 r₃.tail with
            | none => none
            | some (st, r₄) =>
              match expectSym ")" r₄ with
              | none => none
              | some r₅ =>
                match parseBlockTok fuel r₅ with
                | none => none
                | some (b, r₆) => some (Stmt.forStmt v lo hi (some st) b, r₆)
          else
            match expectSym ")" r₃ with
            | none => none
            | some r₄ =>
              match parseBlockTok fuel r₄ with
              | none => none
              | some (b, r₅) => some (Stmt.forStmt v lo hi none b, r₅)) = _
  rw [h3]
  show (if startsWith "," r₃ then
          match parseBin fuel 1 r₃.tail with
          | none => none
          | some (st, r₄) =>
            match expectSym ")" r₄ with
            | none => none
            | some r₅ =>
              match parseBlockTok fuel r₅ with
              | none => none
              | some (b, r₆) => some (Stmt.forStmt v lo hi (some st) b, r₆)
        else
          match expectSym ")" r₃ with
          | none => none
          | some r₄ =>
            match parseBlockTok fuel r₄ with
            | none => none
            | some (b, r₅) => some (Stmt.forStmt v lo hi none b, r₅)) = _
  rw [if_pos (by simp [hc]), h4]
  show (match expectSym ")" r₄ with
        | none => none
        | some r₅ =>
          match parseBlockTok fuel r₅ with
          | none => none
          | some (b, r₆) => some (Stmt.forStmt v lo hi (some st) b, r₆)) = _
  rw [h5]
  show (match parseBlockTok fuel r₅ with
        | none => none
        | some (b, r₆) => some (Stmt.forStmt v lo hi (some st) b, r₆)) = _
  rw [h6]

theorem parseForTail_none_ok (fuel : Nat) (v : String) (r : List Tok) (lo hi : Expr)
    (b : Block) (r₁ r₂ r₃ r₄ r₅ : List Tok)
    (h1 : parseBin fuel 1 r = some (lo, r₁)) (h2 : expectSym "," r₁ = some r₂)
    (h3 : parseBin fuel 1 r₂ = some (hi, r₃)) (hc : startsWith "," r₃ = false)
    (h4 : expectSym ")" r₃ = some r₄) (h5 : parseBlockTok fuel r₄ = some (b, r₅)) :
    parseForTail (fuel + 1) (.ident v :: .sym "in" :: .sym "range" :: .sym "(" :: r) =
      some (.forStmt v lo hi none b, r₅) := by
  rw [show parseForTail (fuel + 1) (.ident v :: .sym "in" :: .sym "range" :: .sym "(" :: r) =
      (match parseBin fuel 1 r with
       | none => none
       | some (lo, r₁) =>
         match expectSym "," r₁ with
         | none => none
         | some r₂ =>
           match parseBin fuel 1 r₂ with
           | none => none
           | some (hi, r₃) =>
             if startsWith "," r₃ then
               match parseBin fuel 1 r₃.tail with
               | none => none
               | some (st, r₄) =>
                 match expectSym ")" r₄ with
                 | none => none
                 | some r₅ =>
                   match parseBlockTok fuel r₅ with
                   | none => none
                   | some (b, r₆) => some (Stmt.forStmt v lo hi (some st) b, r₆)
             else
               match expectSym ")" r₃ with
               | none => none
               | some r₄ =>
                 match parseBlockTok fuel r₄ with
                 | none => none
                 | some (b, r₅) => some (Stmt.forStmt v lo hi none b, r₅)) from rfl, h1]
  show (match expectSym "," r₁ with
        | none => none
        | some r₂ =>
          match parseBin fuel 1 r₂ with
          | none => none
          | some (hi, r₃) =>
            if startsWith "," r₃ then
              match parseBin fuel 1 r₃.tail with
              | none => none
              | some (st, r₄) =>
                match expectSym ")" r₄ with
                | none => none
                | some r₅ =>
                  match parseBlockTok fuel r₅ with
                  | none => none
                  | some (b, r₆) => some (Stmt.forStmt v lo hi (some st) b, r₆)
            else
              match expectSym ")" r₃ with
              | none => none
              | some r₄ =>
                match parseBlockTok fuel r₄ with
                | none => none
                | some (b, r₅) => some (Stmt.forStmt v lo hi none b, r₅)) = _
  rw [h2]
  show (match parseBin fuel 1 r₂ with
        | none => none
        | some (hi, r₃) =>
          if startsWith "," r₃ then
            match parseBin fuel 1 r₃.tail with
            | none => none
            | some (st, r₄) =>
              match expectSym ")" r₄ with
              | none => none
              | some r₅ =>
                match parseBlockTok fuel r₅ with
                | none => none
                | some (b, r₆) => some (Stmt.forStmt v lo hi (some st) b, r₆)
          else
            match expectSym ")" r₃ with
            | none => none
            | some r₄ =>
              match parseBlockTok fuel r₄ with
              | none => none
              | some (b, r₅) => some (Stmt.forStmt v lo hi none b, r₅)) = _
  rw [h3]
  show (if startsWith "," r₃ then
          match parseBin fuel 1 r₃.tail with
          | none => none
          | some (st, r₄) =>
            match expectSym ")" r₄ with
            | none => none
            | some r₅ =>
              match parseBlockTok fuel r₅ with
              | none => none
              | some (b, r₆) => some (Stmt.forStmt v lo hi (some st) b, r₆)
        else
          match expectSym ")" r₃ with
          | none => none
          | some r₄ =>
            match parseBlockTok fuel r₄ with
            | none => none
            | some (b, r₅) => some (Stmt.forStmt v lo hi none b, r₅)) = _
  rw [if_neg (by simp [hc]), h4]
  show (match parseBlockTok fuel r₄ with
        | none => none
        | some (b, r₅) => some (Stmt.forStmt v lo hi none b, r₅)) = _
  rw [h5]

theorem parseWhile_ok (fuel : Nat) (ts : List Tok) (c : Expr) (b : Block) (r₁ r₂ : List Tok)
    (h1 : parseBin fuel 1 ts = some (c, r₁)) (h2 : parseBlockTok fuel r₁ = some (b, r₂)) :
    parseStmt (fuel + 1) (.sym "while" :: ts) = some (.whileStmt c b, r₂) := by
  rw [show parseStmt (fuel + 1) (.sym "while" :: ts) =
      (match parseBin fuel 1 ts with
       | none => none
       | some (c, r₁) =>
         match parseBlockTok fuel r₁ with
         | none => none
         | some (b, r₂) => some (Stmt.whileStmt c b, r₂)) from rfl, h1]
  show (match parseBlockTok fuel r₁ with
        | none => none
        | some (b, r₂) => some (Stmt.whileStmt c b, r₂)) = _
  rw [h2]

theorem parseClassTail_ok (fuel : Nat) (c : String) (r : List Tok)
    (ms : List ClassMember) (r₁ r₂ : List Tok)
    (h1 : parseMembers fuel r = some (ms, r₁)) (h2 : expectSym "\x7d" r₁ = some r₂) :
    parseClassTail (fuel + 1) (.ident c :: .sym "\x7b" :: r) = some (.classDecl c ms, r₂) := by
  rw [show parseClassTail (fuel + 1) (.ident c :: .sym "\x7b" :: r) =
      (match parseMembers fuel r with
       | none => none
       | some (ms, r₁) =>
         match expectSym "\x7d" r₁ with
         | none => none
         | some r₂ => some (Stmt.classDecl c ms, r₂)) from rfl, h1]
  show (match expectSym "\x7d" r₁ with
        | none => none
        | some r₂ => some (Stmt.classDecl c ms, r₂)) = _
  rw [h2]

theorem parseTestTail_ok (fuel : Nat) (d : String) (r : List Tok) (b : Block)
    (r₁ : List Tok) (h : parseBlockTok fuel r = some (b, r₁)) :
    parseTestTail (fuel + 1) (.strTok d :: r) = some (.testStmt d b, r₁) := by
  rw [show parseTestTail (fuel + 1) (.strTok d :: r) =
      (match parseBlockTok fuel r with
       | none => none
       | some (b, r₁) => some (Stmt.testStmt d b, r₁)) from rfl, h]

theorem parseAssertTail_ok (fuel : Nat) (r : List Tok) (c : Expr) (r₁ r₂ : List Tok)
    (h1 : parseBin fuel 1 r = some (c, r₁)) (h2 : expectSym ")" r₁ = some r₂) :
    parseAssertTail (fuel + 1) (.sym "(" :: r) = some (.assertS c, r₂) := by
  rw [show parseAssertTail (fuel + 1) (.sym "(" :: r) =
      (match parseBin fuel 1 r with
       | none => none
       | some (c, r₁) =>
         match expectSym ")" r₁ with
         | none => none
         | some r₂ => some (Stmt.assertS c, r₂)) from rfl, h1]
  show (match expectSym ")" r₁ with
        | none => none
        | some r₂ => some (Stmt.assertS c, r₂)) = _
  rw [h2]

theorem parseAsyncTail_ok (fuel : Nat) (f : String) (r : List Tok) (b : Block)
    (r₁ : List Tok) (h : parseBlockTok fuel r = some (b, r₁)) :
    parseAsyncTail (fuel + 1) (.ident f :: .sym "(" :: .sym ")" :: r) =
      some (.asyncFunc f b, r₁) := by
  rw [show parseAsyncTail (fuel + 1) (.ident f :: .sym "(" :: .sym ")" :: r) =
      (match parseBlockTok fuel r with
       | none => none
       | some (b, r₁) => some (Stmt.asyncFunc f b, r₁)) from rfl, h]

theorem parseThreadTail_ok (fuel : Nat) (t : String) (r : List Tok) (b : Block)
    (r₁ : List Tok) (h : parseBlockTok fuel r = some (b, r₁)) :
    parseThreadTail (fuel + 1) (.ident t :: .sym "=" :: .sym "spawn" :: r) =
      some (.threadSpawn t b, r₁) := by
  rw [show parseThreadTail (fuel + 1) (.ident t :: .sym "=" :: .sym "spawn" :: r) =
      (match parseBlockTok fuel r with
       | none => none
       | some (b, r₁) => some (Stmt.threadSpawn t b, r₁)) from rfl, h]

theorem parseFuncTail_ann_ok (fuel : Nat) (f : String) (r : List Tok)
    (ps : List (String × String)) (t : String) (b : Block) (r₁ r₂ r₃ r₄ : List Tok)
    (h1 : parseParams fuel r = some (ps, r₁)) (h2 : expectSym ")" r₁ = some r₂)
    (hc : startsWith ":" r₂ = true) (h3 : parseAnnTail r₂ = some (t, r₃))
    (h4 : parseBlockTok fuel r₃ = some (b, r₄)) :
    parseFuncTail (fuel + 1) (.ident f :: .sym "(" :: r) = some ((f, ps, some t, b), r₄) := by
  rw [show parseFuncTail (fuel + 1) (.ident f :: .sym "(" :: r) =
      (match parseParams fuel r with
       | none => none
       | some (ps, r₁) =>
         match expectSym ")" r₁ with
         | none => none
         | some r₂ =>
           if startsWith ":" r₂ then
             match parseAnnTail r₂ with
             | none => none
             | some (t, r₃) =>
               match parseBlockTok fuel r₃ with
               | none => none
               | some (b, r₄) => some ((f, ps, some t, b), r₄)
           else
             match parseBlockTok fuel r₂ with
             | none => none
             | some (b, r₃) => some ((f, ps, none, b), r₃)) from rfl, h1]
  show (match expectSym ")" r₁ with
        | none => none
        | some r₂ =>
          if startsWith ":" r₂ then
            match parseAnnTail r₂ with
            | none => none
            | some (t, r₃) =>
              match parseBlockTok fuel r₃ with
              | none => none
              | some (b, r₄) => some ((f, ps, some t, b), r₄)
          else
            match parseBlockTok fuel r₂ with
            | none => none
            | some (b, r₃) => some ((f, ps, none, b), r₃)) = _
  rw [h2]
  show (if startsWith ":" r₂ then
          match parseAnnTail r₂ with
          | none => none
          | some (t, r₃) =>
            match parseBlockTok fuel r₃ with
            | none => none
            | some (b, r₄) => some ((f, ps, some t, b), r₄)
        else
          match parseBlockTok fuel r₂ with
          | none => none
          | some (b, r₃) => some ((f, ps, none, b), r₃)) = _
  rw [if_pos (by simp [hc]), h3]
  show (match parseBlockTok fuel r₃ with
        | none => none
        | some (b, r₄) => some ((f, ps, some t, b), r₄)) = _
  rw [h4]

theorem parseFuncTail_plain_ok (fuel : Nat) (f : String) (r : List Tok)
    (ps : List (String × String)) (b : Block) (r₁ r₂ r₃ : List Tok)
    (h1 : parseParams fuel r = some (ps, r₁)) (h2 : expectSym ")" r₁ = some r₂)
    (hc : startsWith ":" r₂ = false) (h3 : parseBlockTok fuel r₂ = some (b, r₃)) :
    parseFuncTail (fuel + 1) (.ident f :: .sym "(" :: r) = some ((f, ps, none, b), r₃) := by
  rw [show parseFuncTail (fuel + 1) (.ident f :: .sym "(" :: r) =
      (match parseParams fuel r with
       | none => none
       | some (ps, r₁) =>
         match expectSym ")" r₁ with
         | none => none
         | some r₂ =>
           if startsWith ":" r₂ then
             match parseAnnTail r₂ with
             | none => none
             | some (t, r₃) =>
               match parseBlockTok fuel r₃ with
               | none => none
               | some (b, r₄) => some ((f, ps, some t, b), r₄)
           else
             match parseBlockTok fuel r₂ with
             | none => none
             | some (b, r₃) => some ((f, ps, none, b), r₃)) from rfl, h1]
  show (match expectSym ")" r₁ with
        | none => none
        | some r₂ =>
          if startsWith ":" r₂ then
            match parseAnnTail r₂ with
            | none => none
            | some (t, r₃) =>
              match parseBlockTok fuel r₃ with
              | none => none
              | some (b, r₄) => some ((f, ps, some t, b), r₄)
          else
            match parseBlockTok fuel r₂ with
            | none => none
            | some (b, r₃) => some ((f, ps, none, b), r₃)) = _
  rw [h2]
  show (if startsWith ":" r₂ then
          match parseAnnTail r₂ with
          | none => none
          | some (t, r₃) =>
            match parseBlockTok fuel r₃ with
            | none => none
            | some (b, r₄) => some ((f, ps, some t, b), r₄)
        else
          match parseBlockTok fuel r₂ with
          | none => none
          | some (b, r₃) => some ((f, ps, none, b), r₃)) = _
  rw [if_neg (by simp [hc]), h3]

theorem parseBlockTok_ok (fuel : Nat) (r : List Tok) (s : Stmt) (ss : List Stmt)
    (r₁ r₂ r₃ : List Tok)
    (h1 : parseStmt fuel r = some (s, r₁)) (h2 : parseMore fuel r₁ = some (ss, r₂))
    (h3 : expectSym "\x7d" r₂ = some r₃) :
    parseBlockTok (fuel + 1) (.sym "\x7b" :: r) = some (.mk s ss, r₃) := by
  rw [show parseBlockTok (fuel + 1) (.sym "\x7b" :: r) =
      (match parseStmt fuel r with
       | none => none
       | some (s, r₁) =>
         match parseMore fuel r₁ with
         | none => none
         | some (ss, r₂) =>
           match expectSym "\x7d" r₂ with
           | none => none
           | some r₃ => some (Block.mk s ss, r₃)) from rfl, h1]
  show (match parseMore fuel r₁ with
        | none => none
        | some (ss, r₂) =>
          match expectSym "\x7d" r₂ with
          | none => none
          | some r₃ => some (Block.mk s ss, r₃)) = _
  rw [h2]
  show (match expectSym "\x7d" r₂ with
        | none => none
        | some r₃ => some (Block.mk s ss, r₃)) = _
  rw [h3]

theorem parseMore_stop (fuel : Nat) (r : List Tok) :
    parseMore (fuel + 1) (.sym "\x7d" :: r) = some ([], .sym "\x7d" :: r) := rfl

theorem parseMore_cons_ok (fuel : Nat) (ts : List Tok) (s : Stmt) (ss : List Stmt)
    (r₁ r₂ : List Tok) (hb : startsWith "\x7d" ts = false)
    (h1 : parseStmt fuel ts = some (s, r₁)) (h2 : parseMore fuel r₁ = some (ss, r₂)) :
    parseMore (fuel + 1) ts = some (s :: ss, r₂) := by
  rw [show parseMore (fuel + 1) ts =
      (if startsWith "\x7d" ts then some ([], ts)
       else
        match parseStmt fuel ts with
        | none => none
        | some (s, r₁) =>
          match parseMore fuel r₁ with
          | none => none
          | some (ss, r₂) => some (s :: ss, r₂)) from rfl,
    if_neg (by simp [hb]), h1]
  show (match parseMore fuel r₁ with
        | none => none
        | some (ss, r₂) => some (s :: ss, r₂)) = _
  rw [h2]

theorem parseMembers_stop (fuel : Nat) (r : List Tok) :
    parseMembers (fuel + 1) (.sym "\x7d" :: r) = some ([], .sym "\x7d" :: r) := rfl

theorem parseMembers_cons_ok (fuel : Nat) (ts : List Tok) (m : ClassMember)
    (ms : List ClassMember) (r₁ r₂ : List Tok) (hb : startsWith "\x7d" ts = false)
    (h1 : parseMember fuel ts = some (m, r₁)) (h2 : parseMembers fuel r₁ = some (ms, r₂)) :
    parseMembers (fuel + 1) ts = some (m :: ms, r₂) := by
  rw [show parseMembers (fuel + 1) ts =
      (if startsWith "\x7d" ts then some ([], ts)
       else
        match parseMember fuel ts with
        | none => none
        | some (m, r₁) =>
          match parseMembers fuel r₁ with
          | none => none
          | some (ms, r₂) => some (m :: ms, r₂)) from rfl,
    if_neg (by simp [hb]), h1]
  show (match parseMembers fuel r₁ with
        | none => none
        | some (ms, r₂) => some (m :: ms, r₂)) = _
  rw [h2]

theorem parseMember_field_ok (fuel : Nat) (x t : String) (r : List Tok) :
    parseMember (fuel + 1) (.sym "let" :: .ident x :: .sym ":" :: .ident t :: .sym ";" :: r) =
      some (.field x t, r) := rfl

theorem parseMember_method_ok (fuel : Nat) (r : List Tok) (f : String)
    (ps : List (String × String)) (rt : Option String) (b : Block) (r₁ : List Tok)
    (h : parseFuncTail fuel r = some ((f, ps, rt, b), r₁)) :
    parseMember (fuel + 1) (.sym "func" :: r) = some (.method f ps rt b, r₁) := by
  rw [show parseMember (fuel + 1) (.sym "func" :: r) =
      (match parseFuncTail fuel r with
       | none => none
       | some ((f, ps, rt, b), r₁) => some (ClassMember.method f ps rt b, r₁)) from rfl, h]

theorem parseTopRest_stop (fuel : Nat) : parseTopRest (fuel + 1) [] = some ([], []) := rfl

theorem parseTopRest_cons_ok (fuel : Nat) (ts : List Tok) (s : Stmt) (ss : List Stmt)
    (r₁ r₂ : List Tok) (hne : ts.isEmpty = false)
    (h1 : parseStmt fuel ts = some (s, r₁)) (h2 : parseTopRest fuel r₁ = some (ss, r₂)) :
    parseTopRest (fuel + 1) ts = some (s :: ss, r₂) := by
  rw [show parseTopRest (fuel + 1) ts =
      (if ts.isEmpty then some ([], ts)
       else
        match parseStmt fuel ts with
        | none => none
        | some (s, r₁) =>
          match parseTopRest fuel r₁ with
          | none => none
          | some (ss, r₂) => some (s :: ss, r₂)) from rfl,
    if_neg (by simp [hne]), h1]
  show (match parseTopRest fuel r₁ with
        | none => none
        | some (ss, r₂) => some (s :: ss, r₂)) = _
  rw [h2]

theorem parseStmt_let (fuel : Nat) (r : List Tok) :
    parseStmt (fuel + 1) (.sym "let" :: r) = parseLetTail fuel r := rfl

theorem parseStmt_const (fuel : Nat) (r : List Tok) :
    parseStmt (fuel + 1) (.sym "const" :: r) = parseConstTail fuel r := rfl

theorem parseStmt_func_ok (fuel : Nat) (r : List Tok) (f : String)
    (ps : List (String × String)) (rt : Option String) (b : Block) (r₁ : List Tok)
    (h : parseFuncTail fuel r = some ((f, ps, rt, b), r₁)) :
    parseStmt (fuel + 1) (.sym "func" :: r) = some (.funcDecl f ps rt b, r₁) := by
  rw [show parseStmt (fuel + 1) (.sym "func" :: r) =
      (match parseFuncTail fuel r with
       | none => none
       | some ((f, ps, rt, b), r₁) => some (Stmt.funcDecl f ps rt b, r₁)) from rfl, h]

theorem parseStmt_if (fuel : Nat) (r : List Tok) :
    parseStmt (fuel + 1) (.sym "if" :: r) = parseIfTail fuel r := rfl

theorem parseStmt_for (fuel : Nat) (r : List Tok) :
    parseStmt (fuel + 1) (.sym "for" :: r) = parseForTail fuel r := rfl

theorem parseStmt_class (fuel : Nat) (r : List Tok) :
    parseStmt (fuel + 1) (.sym "class" :: r) = parseClassTail fuel r := rfl

theorem parseStmt_test (fuel : Nat) (r : List Tok) :
    parseStmt (fuel + 1) (.sym "test" :: r) = parseTestTail fuel r := rfl

theorem parseStmt_assert (fuel : Nat) (r : List Tok) :
    parseStmt (fuel + 1) (.sym "assert" :: r) = parseAssertTail fuel r := rfl

theorem parseStmt_async (fuel : Nat) (r : List Tok) :
    parseStmt (fuel + 1) (.sym "async" :: r) = parseAsyncTail fuel r := rfl

theorem parseStmt_thread (fuel : Nat) (r : List Tok) :
    parseStmt (fuel + 1) (.sym "thread" :: r) = parseThreadTail fuel r := rfl

theorem sizeS_pos (s : Stmt) : 1 ≤ sizeS s := by
  cases s with
  | ifStmt c tb eb => cases eb <;> (show 1 ≤ _ + 1; omega)
  | _ => show 1 ≤ _ + 1; omega

theorem sizeB_pos (b : Block) : 1 ≤ sizeB b := by
  cases b
  exact Nat.succ_le_succ (Nat.zero_le _)

theorem params_roundtrip (ps : List (String × String)) (R : List Tok) :
    PW parseParams (printParams ps ++ (.sym ")" :: R)) ps (.sym ")" :: R) := by
  induction ps generalizing R with
  | nil =>
    refine ⟨1, fun fuel hf => ?_⟩
    obtain ⟨m, rfl⟩ : ∃ m, fuel = m + 1 := ⟨fuel - 1, by omega⟩
    rfl
  | cons pt ps ih =>
    obtain ⟨p, t⟩ := pt
    cases ps with
    | nil =>
      refine ⟨1, fun fuel hf => ?_⟩
      obtain ⟨m, rfl⟩ : ∃ m, fuel = m + 1 := ⟨fuel - 1, by omega⟩
      rfl
    | cons q qs =>
      obtain ⟨n, hn⟩ := ih R
      refine ⟨n + 1, fun fuel hf => ?_⟩
      obtain ⟨m, rfl⟩ : ∃ m, fuel = m + 1 := ⟨fuel - 1, by omega⟩
      rw [show parseParams (m + 1) (printParams ((p, t) :: q :: qs) ++ (.sym ")" :: R)) =
          (match parseParams m (printParams (q :: qs) ++ (.sym ")" :: R)) with
           | none => none
           | some (ps', r₁) => some ((p, t) :: ps', r₁)) from rfl,
        show parseParams m (printParams (q :: qs) ++ (.sym ")" :: R)) =
          some (q :: qs, .sym ")" :: R) from hn m (by omega)]

theorem exprStart_stmtStart (t : Tok) (h : exprStartTok t = true) : stmtStartTok t = true := by
  rw [stmtStartTok, h]
  exact Bool.true_or _

theorem cons_head_start (a : Tok) (l r : List Tok) (x : List Tok) (hx : x = a :: l)
    (hT : stmtStartTok a = true) :
    ∃ t ts', x ++ r = t :: ts' ∧ stmtStartTok t = true :=
  ⟨a, l ++ r, by rw [hx]; rfl, hT⟩

theorem printS_cons (s : Stmt) (r : List Tok) :
    ∃ t ts', printS s ++ r = t :: ts' ∧ stmtStartTok t = true := by
  cases s with
  | exprStmt e =>
    obtain ⟨t, ts', heq, ht⟩ := printE_cons e 1 (.sym ";" :: r)
    refine ⟨t, ts', ?_, exprStart_stmtStart t ht⟩
    rw [printS, List.append_assoc, List.singleton_append]
    exact heq
  | letDecl x ty e => rw [printS]; exact ⟨_, _, rfl, rfl⟩
  | constDecl x ty e => rw [printS]; exact ⟨_, _, rfl, rfl⟩
  | funcDecl f ps rt b => rw [printS]; exact ⟨_, _, rfl, rfl⟩
  | ifStmt c tb eb => cases eb <;> (rw [printS]; exact ⟨_, _, rfl, rfl⟩)
  | forStmt v lo hi st b => cases st <;> (rw [printS]; exact ⟨_, _, rfl, rfl⟩)
  | whileStmt c b => rw [printS]; exact ⟨_, _, rfl, rfl⟩
  | classDecl c ms => rw [printS]; exact ⟨_, _, rfl, rfl⟩
  | safeDecl x t a => cases a <;> (rw [printS]; exact ⟨_, _, rfl, rfl⟩)
  | testStmt d b => rw [printS]; exact ⟨_, _, rfl, rfl⟩
  | assertS c => rw [printS]; exact ⟨_, _, rfl, rfl⟩
  | asyncFunc f b => rw [printS]; exact ⟨_, _, rfl, rfl⟩
  | threadSpawn t b => rw [printS]; exact ⟨_, _, rfl, rfl⟩

theorem stmtStart_not (t : Tok) (ht : stmtStartTok t = true) (s' : String)
    (h1 : s' ≠ "(") (h2 : s' ≠ "!") (h3 : s' ≠ "-") (h4 : s' ≠ "await") (h5 : s' ≠ "let")
    (h6 : s' ≠ "const") (h7 : s' ≠ "func") (h8 : s' ≠ "if") (h9 : s' ≠ "for")
    (h10 : s' ≠ "while") (h11 : s' ≠ "class") (h12 : s' ≠ "test") (h13 : s' ≠ "assert")
    (h14 : s' ≠ "async") (h15 : s' ≠ "thread") :
    ∀ ts', startsWith s' (t :: ts') = false := by
  intro ts'
  cases t with
  | ident x => rfl
  | intTok n => rfl
  | floatTok w f => rfl
  | strTok s'' => rfl
  | sym s'' =>
    rw [startsWith_cons_sym]
    by_contra hC
    have hb : (s'' == s') = true := by
      revert hC
      cases (s'' == s'') <;> cases hx : (s'' == s') <;> simp
    have hss : s'' = s' := by simpa using hb
    subst hss
    simp only [stmtStartTok, exprStartTok, kwStartTok, Bool.or_eq_true, beq_iff_eq] at ht
    simp [h1, h2, h3, h4, h5, h6, h7, h8, h9, h10, h11, h12, h13, h14, h15] at ht

theorem printS_not_brace (st : Stmt) (r : List Tok) :
    startsWith "\x7d" (printS st ++ r) = false := by
  obtain ⟨t, ts', heq, ht⟩ := printS_cons st r
  rw [heq]
  exact stmtStart_not t ht "\x7d" (by decide) (by decide) (by decide) (by decide) (by decide)
    (by decide) (by decide) (by decide) (by decide) (by decide) (by decide) (by decide)
    (by decide) (by decide) (by decide) ts'

theorem printS_not_else (st : Stmt) (r : List Tok) :
    startsWith "else" (printS st ++ r) = false := by
  obtain ⟨t, ts', heq, ht⟩ := printS_cons st r
  rw [heq]
  exact stmtStart_not t ht "else" (by decide) (by decide) (by decide) (by decide) (by decide)
    (by decide) (by decide) (by decide) (by decide) (by decide) (by decide) (by decide)
    (by decide) (by decide) (by decide) ts'

theorem printS_ne_nil (st : Stmt) (r : List Tok) : (printS st ++ r).isEmpty = false := by
  obtain ⟨t, ts', heq, ht⟩ := printS_cons st r
  rw [heq]
  rfl

theorem printSs_not_else (ss : List Stmt) (R : List Tok)
    (hR : startsWith "else" R = false) :
    startsWith "else" (printSs ss ++ R) = false := by
  cases ss with
  | nil => rw [printSs]; simpa using hR
  | cons s ss =>
    rw [printSs, List.append_assoc]
    exact printS_not_else s _

theorem printMember_not_brace (m : ClassMember) (r : List Tok) :
    startsWith "\x7d" (printMember m ++ r) = false := by
  cases m <;> (rw [printMember]; rfl)

theorem startsWith_block (s : String) (b : Block) (r : List Tok) :
    startsWith s (printBlockTok b ++ r) = ("\x7b" == s) := by
  rw [printBlockTok]
  rfl

theorem followClear_block (p : Nat) (b : Block) (r : List Tok) :
    FollowClear p (printBlockTok b ++ r) := by
  rw [printBlockTok]
  exact followClear_sym p "\x7b" _ rfl rfl rfl

theorem parseLetTail_safe (fuel : Nat) (x : String) (r : List Tok)
    (hs : startsWith "safe" r = true) :
    parseLetTail (fuel + 1) (.ident x :: .sym "=" :: r) = parseSafeTail fuel x r.tail := by
  rw [show parseLetTail (fuel + 1) (.ident x :: .sym "=" :: r) =
      (if startsWith "safe" r then parseSafeTail fuel x r.tail
       else
        match parseBin fuel 1 r with
        | none => none
        | some (e, r₁) =>
          match expectSym ";" r₁ with
          | none => none
          | some r₂ => some (Stmt.letDecl x none e, r₂)) from rfl,
    if_pos (by simp [hs])]

theorem funcTail_build (f : String) (ps : List (String × String)) (rt : Option String)
    (b : Block) (rest : List Tok)
    (hB : PW parseBlockTok (printBlockTok b ++ rest) b rest) :
    PW parseFuncTail
      (.ident f :: .sym "(" :: (printParams ps ++ (.sym ")" ::
        (printRetTy rt ++ (printBlockTok b ++ rest))))) (f, ps, rt, b) rest := by
  obtain ⟨nB, hB⟩ := hB
  obtain ⟨nP, hP⟩ := params_roundtrip ps (printRetTy rt ++ (printBlockTok b ++ rest))
  cases rt with
  | none =>
    refine ⟨nB + nP + 1, fun fuel hf => ?_⟩
    obtain ⟨m, rfl⟩ : ∃ m, fuel = m + 1 := ⟨fuel - 1, by omega⟩
    exact parseFuncTail_plain_ok m f _ ps b _ _ _ (hP m (by omega)) rfl
      (show startsWith ":" (printBlockTok b ++ rest) = false from by
        rw [startsWith_block]; rfl)
      (hB m (by omega))
  | some t =>
    refine ⟨nB + nP + 1, fun fuel hf => ?_⟩
    obtain ⟨m, rfl⟩ : ∃ m, fuel = m + 1 := ⟨fuel - 1, by omega⟩
    exact parseFuncTail_ann_ok m f _ ps t b _ _ _ _ (hP m (by omega)) rfl rfl rfl
      (hB m (by omega))

theorem parseMore_nil_rt (rest : List Tok) :
    PW parseMore (printSs [] ++ (.sym "\x7d" :: rest)) [] (.sym "\x7d" :: rest) := by
  refine ⟨1, fun fuel hf => ?_⟩
  obtain ⟨m, rfl⟩ : ∃ m, fuel = m + 1 := ⟨fuel - 1, by omega⟩
  rw [show printSs [] = [] from by rw [printSs]]
  exact parseMore_stop m rest

theorem parseMembers_nil_rt (rest : List Tok) :
    PW parseMembers (printMembers [] ++ (.sym "\x7d" :: rest)) [] (.sym "\x7d" :: rest) := by
  refine ⟨1, fun fuel hf => ?_⟩
  obtain ⟨m, rfl⟩ : ∃ m, fuel = m + 1 := ⟨fuel - 1, by omega⟩
  rw [show printMembers [] = [] from by rw [printMembers]]
  exact parseMembers_stop m rest

theorem stmt_roundtrip : ∀ (N : Nat),
    (∀ s : Stmt, sizeS s ≤ N → ∀ rest : List Tok, startsWith "else" rest = false →
      PW parseStmt (printS s ++ rest) s rest) ∧
    (∀ b : Block, sizeB b ≤ N → ∀ rest : List Tok,
      PW parseBlockTok (printBlockTok b ++ rest) b rest) ∧
    (∀ ss : List Stmt, sizeSs ss ≤ N → ∀ rest : List Tok,
      PW parseMore (printSs ss ++ (.sym "\x7d" :: rest)) ss (.sym "\x7d" :: rest)) ∧
    (∀ ms : List ClassMember, sizeMs ms ≤ N → ∀ rest : List Tok,
      PW parseMembers (printMembers ms ++ (.sym "\x7d" :: rest)) ms (.sym "\x7d" :: rest)) := by
  intro N
  induction N with
  | zero =>
    refine ⟨?_, ?_, ?_, ?_⟩
    · intro s hs
      exact absurd (le_trans (sizeS_pos s) hs) (by omega)
    · intro b hb
      exact absurd (le_trans (sizeB_pos b) hb) (by omega)
    · intro ss hss rest
      cases ss with
      | nil => exact parseMore_nil_rt rest
      | cons s ss => exact absurd (show sizeS s + sizeSs ss + 1 ≤ 0 from hss) (by omega)
    · intro ms hms rest
      cases ms with
      | nil => exact parseMembers_nil_rt rest
      | cons mem ms => exact absurd (show sizeM mem + sizeMs ms + 1 ≤ 0 from hms) (by omega)
  | succ N ih =>
    obtain ⟨ihS, ihB, ihM, ihC⟩ := ih
    refine ⟨?_, ?_, ?_, ?_⟩
    · intro s hs rest hrest
      cases s with
      | letDecl x ty e =>
        obtain ⟨nE, hE⟩ := printE_parses e 1 (.sym ";" :: rest) le_rfl (by omega)
          (followClear_sym 1 ";" rest rfl rfl rfl)
        cases ty with
        | none =>
          refine ⟨nE + 2, fun fuel hf => ?_⟩
          obtain ⟨m, rfl⟩ : ∃ m, fuel = m + 1 + 1 := ⟨fuel - 2, by omega⟩
          rw [printS]
          simp only [printRetTy, List.cons_append, List.append_assoc, List.singleton_append,
            List.nil_append]
          rw [parseStmt_let (m + 1)]
          exact parseLetTail_plain_ok m x _ e _ rest
            (startsWith_printE "safe" e 1 _ (by decide) (by decide) (by decide) (by decide))
            (hE m (by omega)) rfl
        | some t =>
          refine ⟨nE + 2, fun fuel hf => ?_⟩
          obtain ⟨m, rfl⟩ : ∃ m, fuel = m + 1 + 1 := ⟨fuel - 2, by omega⟩
          rw [printS]
          simp only [printRetTy, List.cons_append, List.append_assoc, List.singleton_append,
            List.nil_append]
          rw [parseStmt_let (m + 1)]
          exact parseLetTail_ann_ok m x t _ e _ rest (hE m (by omega)) rfl
      | constDecl x ty e =>
        obtain ⟨nE, hE⟩ := printE_parses e 1 (.sym ";" :: rest) le_rfl (by omega)
          (followClear_sym 1 ";" rest rfl rfl rfl)
        cases ty with
        | none =>
          refine ⟨nE + 2, fun fuel hf => ?_⟩
          obtain ⟨m, rfl⟩ : ∃ m, fuel = m + 1 + 1 := ⟨fuel - 2, by omega⟩
          rw [printS]
          simp only [printRetTy, List.cons_append, List.append_assoc, List.singleton_append,
            List.nil_append]
          rw [parseStmt_const (m + 1)]
          exact parseConstTail_plain_ok m x _ e _ rest (hE m (by omega)) rfl
        | some t =>
          refine ⟨nE + 2, fun fuel hf => ?_⟩
          obtain ⟨m, rfl⟩ : ∃ m, fuel = m + 1 + 1 := ⟨fuel - 2, by omega⟩
          rw [printS]
          simp only [printRetTy, List.cons_append, List.append_assoc, List.singleton_append,
            List.nil_append]
          rw [parseStmt_const (m + 1)]
          exact parseConstTail_ann_ok m x t _ e _ rest (hE m (by omega)) rfl
      | exprStmt e =>
        obtain ⟨nE, hE⟩ := printE_parses e 1 (.sym ";" :: rest) le_rfl (by omega)
          (followClear_sym 1 ";" rest rfl rfl rfl)
        refine ⟨nE + 1, fun fuel hf => ?_⟩
        obtain ⟨m, rfl⟩ : ∃ m, fuel = m + 1 := ⟨fuel - 1, by omega⟩
        rw [printS]
        simp only [List.cons_append, List.append_assoc, List.singleton_append]
        exact parseStmt_expr_ok m _ e _ rest
          (startsWith_printE "let" e 1 _ (by decide) (by decide) (by decide) (by decide))
          (startsWith_printE "const" e 1 _ (by decide) (by decide) (by decide) (by decide))
          (startsWith_printE "func" e 1 _ (by decide) (by decide) (by decide) (by decide))
          (startsWith_printE "if" e 1 _ (by decide) (by decide) (by decide) (by decide))
          (startsWith_printE "for" e 1 _ (by decide) (by decide) (by decide) (by decide))
          (startsWith_printE "while" e 1 _ (by decide) (by decide) (by decide) (by decide))
          (startsWith_printE "class" e 1 _ (by decide) (by decide) (by decide) (by decide))
          (startsWith_printE "test" e 1 _ (by decide) (by decide) (by decide) (by decide))
          (startsWith_printE "assert" e 1 _ (by decide) (by decide) (by decide) (by decide))
          (startsWith_printE "async" e 1 _ (by decide) (by decide) (by decide) (by decide))
          (startsWith_printE "thread" e 1 _ (by decide) (by decide) (by decide) (by decide))
          (hE m (by omega)) rfl
      | funcDecl f ps rt b =>
        have hsz : sizeB b + 1 ≤ N + 1 := hs
        obtain ⟨nF, hF⟩ := funcTail_build f ps rt b rest (ihB b (by omega) rest)
        refine ⟨nF + 1, fun fuel hf => ?_⟩
        obtain ⟨m, rfl⟩ : ∃ m, fuel = m + 1 := ⟨fuel - 1, by omega⟩
        rw [printS]
        simp only [List.cons_append, List.append_assoc]
        exact parseStmt_func_ok m _ f ps rt b rest (hF m (by omega))
      | ifStmt c tb eb =>
        cases eb with
        | none =>
          have hsz : sizeB tb + 0 + 1 ≤ N + 1 := hs
          obtain ⟨nC, hC⟩ := printE_parses c 1 (printBlockTok tb ++ rest) le_rfl (by omega)
            (followClear_block 1 tb rest)
          obtain ⟨nB, hB⟩ := ihB tb (by omega) rest
          refine ⟨nC + nB + 2, fun fuel hf => ?_⟩
          obtain ⟨m, rfl⟩ : ∃ m, fuel = m + 1 + 1 := ⟨fuel - 2, by omega⟩
          rw [printS]
          simp only [List.cons_append, List.append_assoc, List.append_nil]
          rw [parseStmt_if (m + 1)]
          exact parseIfTail_none_ok m _ c tb _ _ (hC m (by omega)) (hB m (by omega)) hrest
        | some beb =>
          have hsz : sizeB tb + sizeB beb + 1 ≤ N + 1 := hs
          obtain ⟨nC, hC⟩ := printE_parses c 1
            (printBlockTok tb ++ (.sym "else" :: (printBlockTok beb ++ rest))) le_rfl (by omega)
            (followClear_block 1 tb _)
          obtain ⟨nT, hT⟩ := ihB tb (by omega) (.sym "else" :: (printBlockTok beb ++ rest))
          obtain ⟨nE2, hE2⟩ := ihB beb (by omega) rest
          refine ⟨nC + nT + nE2 + 2, fun fuel hf => ?_⟩
          obtain ⟨m, rfl⟩ : ∃ m, fuel = m + 1 + 1 := ⟨fuel - 2, by omega⟩
          rw [printS]
          simp only [List.cons_append, List.append_assoc]
          rw [parseStmt_if (m + 1)]
          exact parseIfTail_some_ok m _ c tb beb _ _ _ (hC m (by omega)) (hT m (by omega)) rfl
            (hE2 m (by omega))
      | forStmt v lo hi st b =>
        have hsz : sizeB b + 1 ≤ N + 1 := hs
        cases st with
        | none =>
          obtain ⟨nB, hB⟩ := ihB b (by omega) rest
          obtain ⟨nHi, hHi⟩ := printE_parses hi 1 (.sym ")" :: (printBlockTok b ++ rest)) le_rfl
            (by omega) (followClear_sym 1 ")" _ rfl rfl rfl)
          obtain ⟨nLo, hLo⟩ := printE_parses lo 1
            (.sym "," :: (printE hi 1 ++ (.sym ")" :: (printBlockTok b ++ rest)))) le_rfl
            (by omega) (followClear_sym 1 "," _ rfl rfl rfl)
          refine ⟨nB + nHi + nLo + 2, fun fuel hf => ?_⟩
          obtain ⟨m, rfl⟩ : ∃ m, fuel = m + 1 + 1 := ⟨fuel - 2, by omega⟩
          rw [printS]
          simp only [List.cons_append, List.append_assoc, List.nil_append, List.append_nil]
          rw [parseStmt_for (m + 1)]
          exact parseForTail_none_ok m v _ lo hi b _ _ _ _ _ (hLo m (by omega)) rfl
            (hHi m (by omega)) rfl rfl (hB m (by omega))
        | some stE =>
          obtain ⟨nB, hB⟩ := ihB b (by omega) rest
          obtain ⟨nSt, hSt⟩ := printE_parses stE 1 (.sym ")" :: (printBlockTok b ++ rest)) le_rfl
            (by omega) (followClear_sym 1 ")" _ rfl rfl rfl)
          obtain ⟨nHi, hHi⟩ := printE_parses hi 1
            (.sym "," :: (printE stE 1 ++ (.sym ")" :: (printBlockTok b ++ rest)))) le_rfl
            (by omega) (followClear_sym 1 "," _ rfl rfl rfl)
          obtain ⟨nLo, hLo⟩ := printE_parses lo 1
            (.sym "," :: (printE hi 1 ++
              (.sym "," :: (printE stE 1 ++ (.sym ")" :: (printBlockTok b ++ rest)))))) le_rfl
            (by omega) (followClear_sym 1 "," _ rfl rfl rfl)
          refine ⟨nB + nSt + nHi + nLo + 2, fun fuel hf => ?_⟩
          obtain ⟨m, rfl⟩ : ∃ m, fuel = m + 1 + 1 := ⟨fuel - 2, by omega⟩
          rw [printS]
          simp only [List.cons_append, List.append_assoc]
          rw [parseStmt_for (m + 1)]
          exact parseForTail_some_ok m v _ lo hi stE b _ _ _ _ _ _ (hLo m (by omega)) rfl
            (hHi m (by omega)) rfl (hSt m (by omega)) rfl (hB m (by omega))
      | whileStmt c b =>
        have hsz : sizeB b + 1 ≤ N + 1 := hs
        obtain ⟨nB, hB⟩ := ihB b (by omega) rest
        obtain ⟨nC, hC⟩ := printE_parses c 1 (printBlockTok b ++ rest) le_rfl (by omega)
          (followClear_block 1 b rest)
        refine ⟨nB + nC + 1, fun fuel hf => ?_⟩
        obtain ⟨m, rfl⟩ : ∃ m, fuel = m + 1 := ⟨fuel - 1, by omega⟩
        rw [printS]
        simp only [List.cons_append, List.append_assoc]
        exact parseWhile_ok m _ c b _ _ (hC m (by omega)) (hB m (by omega))
      | classDecl c ms =>
        have hsz : sizeMs ms + 1 ≤ N + 1 := hs
        obtain ⟨nM, hM⟩ := ihC ms (by omega) rest
        refine ⟨nM + 2, fun fuel hf => ?_⟩
        obtain ⟨m, rfl⟩ : ∃ m, fuel = m + 1 + 1 := ⟨fuel - 2, by omega⟩
        rw [printS]
        simp only [List.cons_append, List.append_assoc, List.singleton_append]
        rw [parseStmt_class (m + 1)]
        exact parseClassTail_ok m c _ ms _ rest (hM m (by omega)) rfl
      | safeDecl x t a =>
        cases a with
        | none =>
          refine ⟨3, fun fuel hf => ?_⟩
          obtain ⟨m, rfl⟩ : ∃ m, fuel = m + 1 + 1 + 1 := ⟨fuel - 3, by omega⟩
          rw [printS]
          simp only [List.cons_append, List.append_assoc, List.nil_append,
            List.singleton_append]
          rw [parseStmt_let (m + 1 + 1), parseLetTail_safe (m + 1) x
            (.sym "safe" :: .sym "<" :: .ident t :: .sym ">" :: .sym "(" :: .sym ")" ::
              .sym ";" :: rest) rfl]
          exact parseSafeTail_none_ok m x t rest
        | some e =>
          obtain ⟨nE, hE⟩ := printE_parses e 1 (.sym ")" :: .sym ";" :: rest) le_rfl (by omega)
            (followClear_sym 1 ")" _ rfl rfl rfl)
          refine ⟨nE + 3, fun fuel hf => ?_⟩
          obtain ⟨m, rfl⟩ : ∃ m, fuel = m + 1 + 1 + 1 := ⟨fuel - 3, by omega⟩
          rw [printS]
          simp only [List.cons_append, List.append_assoc, List.nil_append,
            List.singleton_append]
          rw [parseStmt_let (m + 1 + 1), parseLetTail_safe (m + 1) x
            (.sym "safe" :: .sym "<" :: .ident t :: .sym ">" :: .sym "(" ::
              (printE e 1 ++ (.sym ")" :: .sym ";" :: rest))) rfl]
          exact parseSafeTail_some_ok m x t _ e _ _ rest
            (startsWith_printE ")" e 1 _ (by decide) (by decide) (by decide) (by decide))
            (hE m (by omega)) rfl rfl
      | testStmt d b =>
        have hsz : sizeB b + 1 ≤ N + 1 := hs
        obtain ⟨nB, hB⟩ := ihB b (by omega) rest
        refine ⟨nB + 2, fun fuel hf => ?_⟩
        obtain ⟨m, rfl⟩ : ∃ m, fuel = m + 1 + 1 := ⟨fuel - 2, by omega⟩
        rw [printS]
        simp only [List.cons_append, List.append_assoc]
        rw [parseStmt_test (m + 1)]
        exact parseTestTail_ok m d _ b rest (hB m (by omega))
      | assertS c =>
        obtain ⟨nC, hC⟩ := printE_parses c 1 (.sym ")" :: rest) le_rfl (by omega)
          (followClear_sym 1 ")" rest rfl rfl rfl)
        refine ⟨nC + 2, fun fuel hf => ?_⟩
        obtain ⟨m, rfl⟩ : ∃ m, fuel = m + 1 + 1 := ⟨fuel - 2, by omega⟩
        rw [printS]
        simp only [List.cons_append, List.append_assoc, List.singleton_append]
        rw [parseStmt_assert (m + 1)]
        exact parseAssertTail_ok m _ c _ rest (hC m (by omega)) rfl
      | asyncFunc f b =>
        have hsz : sizeB b + 1 ≤ N + 1 := hs
        obtain ⟨nB, hB⟩ := ihB b (by omega) rest
        refine ⟨nB + 2, fun fuel hf => ?_⟩
        obtain ⟨m, rfl⟩ : ∃ m, fuel = m + 1 + 1 := ⟨fuel - 2, by omega⟩
        rw [printS]
        simp only [List.cons_append, List.append_assoc]
        rw [parseStmt_async (m + 1)]
        exact parseAsyncTail_ok m f _ b rest (hB m (by omega))
      | threadSpawn t b =>
        have hsz : sizeB b + 1 ≤ N + 1 := hs
        obtain ⟨nB, hB⟩ := ihB b (by omega) rest
        refine ⟨nB + 2, fun fuel hf => ?_⟩
        obtain ⟨m, rfl⟩ : ∃ m, fuel = m + 1 + 1 := ⟨fuel - 2, by omega⟩
        rw [printS]
        simp only [List.cons_append, List.append_assoc]
        rw [parseStmt_thread (m + 1)]
        exact parseThreadTail_ok m t _ b rest (hB m (by omega))
    · intro b hb rest
      obtain ⟨s, ss⟩ := b
      have hsz : sizeS s + sizeSs ss + 1 ≤ N + 1 := hb
      obtain ⟨n1, h1⟩ := ihS s (by omega) (printSs ss ++ (.sym "\x7d" :: rest))
        (printSs_not_else ss (.sym "\x7d" :: rest) rfl)
      obtain ⟨n2, h2⟩ := ihM ss (by omega) rest
      refine ⟨n1 + n2 + 1, fun fuel hf => ?_⟩
      obtain ⟨m, rfl⟩ : ∃ m, fuel = m + 1 := ⟨fuel - 1, by omega⟩
      rw [printBlockTok, printB]
      simp only [List.cons_append, List.append_assoc, List.singleton_append]
      exact parseBlockTok_ok m _ s ss _ _ rest (h1 m (by omega)) (h2 m (by omega)) rfl
    · intro ss hss rest
      cases ss with
      | nil => exact parseMore_nil_rt rest
      | cons s ss =>
        have hsz : sizeS s + sizeSs ss + 1 ≤ N + 1 := hss
        obtain ⟨n1, h1⟩ := ihS s (by omega) (printSs ss ++ (.sym "\x7d" :: rest))
          (printSs_not_else ss (.sym "\x7d" :: rest) rfl)
        obtain ⟨n2, h2⟩ := ihM ss (by omega) rest
        refine ⟨n1 + n2 + 1, fun fuel hf => ?_⟩
        obtain ⟨m, rfl⟩ : ∃ m, fuel = m + 1 := ⟨fuel - 1, by omega⟩
        rw [printSs, List.append_assoc]
        exact parseMore_cons_ok m _ s ss _ _ (printS_not_brace s _) (h1 m (by omega))
          (h2 m (by omega))
    · intro ms hms rest
      cases ms with
      | nil => exact parseMembers_nil_rt rest
      | cons mem ms =>
        cases mem with
        | field x t =>
          have hsz : 1 + sizeMs ms + 1 ≤ N + 1 := hms
          obtain ⟨n2, h2⟩ := ihC ms (by omega) rest
          refine ⟨n2 + 2, fun fuel hf => ?_⟩
          obtain ⟨m, rfl⟩ : ∃ m, fuel = m + 1 + 1 := ⟨fuel - 2, by omega⟩
          rw [printMembers, printMember]
          simp only [List.cons_append, List.append_assoc, List.nil_append]
          exact parseMembers_cons_ok (m + 1) _ (.field x t) ms _ _ rfl
            (parseMember_field_ok m x t _) (h2 (m + 1) (by omega))
        | method f ps rt b =>
          have hsz : (sizeB b + 1) + sizeMs ms + 1 ≤ N + 1 := hms
          obtain ⟨n2, h2⟩ := ihC ms (by omega) rest
          obtain ⟨nF, hF⟩ := funcTail_build f ps rt b (printMembers ms ++ (.sym "\x7d" :: rest))
            (ihB b (by omega) _)
          refine ⟨nF + n2 + 2, fun fuel hf => ?_⟩
          obtain ⟨m, rfl⟩ : ∃ m, fuel = m + 1 + 1 := ⟨fuel - 2, by omega⟩
          rw [printMembers, printMember]
          simp only [List.cons_append, List.append_assoc]
          exact parseMembers_cons_ok (m + 1) _ (.method f ps rt b) ms _ _ rfl
            (parseMember_method_ok m _ f ps rt b _ (hF m (by omega))) (h2 (m + 1) (by omega))

theorem topRest_rt (ss : List Stmt) : PW parseTopRest (printSs ss) ss [] := by
  induction ss with
  | nil =>
    refine ⟨1, fun fuel hf => ?_⟩
    obtain ⟨m, rfl⟩ : ∃ m, fuel = m + 1 := ⟨fuel - 1, by omega⟩
    rw [show printSs [] = [] from by rw [printSs]]
    exact parseTopRest_stop m
  | cons s ss ih =>
    have hne : startsWith "else" (printSs ss) = false := by
      have h := printSs_not_else ss [] rfl
      rwa [List.append_nil] at h
    obtain ⟨n1, h1⟩ := (stmt_roundtrip (sizeS s)).1 s le_rfl (printSs ss) hne
    obtain ⟨n2, h2⟩ := ih
    refine ⟨n1 + n2 + 1, fun fuel hf => ?_⟩
    obtain ⟨m, rfl⟩ : ∃ m, fuel = m + 1 := ⟨fuel - 1, by omega⟩
    rw [printSs]
    exact parseTopRest_cons_ok m _ s ss _ _ (printS_ne_nil s _) (h1 m (by omega))
      (h2 m (by omega))

theorem print_parse_program (b : Block) : ParsesProgram (printProgram b) b := by
  obtain ⟨s, ss⟩ := b
  have hne : startsWith "else" (printSs ss) = false := by
    have h := printSs_not_else ss [] rfl
    rwa [List.append_nil] at h
  obtain ⟨n1, h1⟩ := (stmt_roundtrip (sizeS s)).1 s le_rfl (printSs ss) hne
  obtain ⟨n2, h2⟩ := topRest_rt ss
  refine ⟨n1 + n2, ?_⟩
  rw [show printProgram (Block.mk s ss) = printS s ++ printSs ss from by
    rw [printProgram, printB]]
  rw [show parseProgram (n1 + n2) (printS s ++ printSs ss) =
      (match parseStmt (n1 + n2) (printS s ++ printSs ss) with
       | none => none
       | some (s', r) =>
         match parseTopRest (n1 + n2) r with
         | none => none
         | some (ss', r₂) => if r₂.isEmpty then some (Block.mk s' ss') else none) from rfl]
  rw [show parseStmt (n1 + n2) (printS s ++ printSs ss) = some (s, printSs ss) from
    h1 (n1 + n2) (by omega)]
  show (match parseTopRest (n1 + n2) (printSs ss) with
        | none => none
        | some (ss', r₂) => if r₂.isEmpty then some (Block.mk s ss') else none) = _
  rw [show parseTopRest (n1 + n2) (printSs ss) = some (ss, []) from h2 (n1 + n2) (by omega)]
  rfl

/-- **C7.** Parse/print round trip (modelled from the spec: the repository has
no parser implementation, so Parser and pretty-printer are modelled from the
EBNF in `grammar.md` and the precedence table of the spec, at the token level):
for every token stream `ts` the Parser accepts with AST `p` — every
syntactically valid input — pretty-printing `p` and re-parsing the printed
stream succeeds and yields an AST structurally identical to `p`. -/
theorem parse_print_roundtrip (ts : List Tok) (p : Block) (_h : ParsesProgram ts p) :
    ParsesProgram (printProgram p) p :=
  print_parse_program p

theorem parse_print_roundtrip_witness :
    ParsesProgram [Tok.sym "let", Tok.ident "x", Tok.sym "=", Tok.intTok 42, Tok.sym ";"]
      (Block.mk (Stmt.letDecl "x" none (Expr.intLit 42)) []) ∧
    ParsesProgram (printProgram (Block.mk (Stmt.letDecl "x" none (Expr.intLit 42)) []))
      (Block.mk (Stmt.letDecl "x" none (Expr.intLit 42)) []) :=
  ⟨⟨20, rfl⟩,
    parse_print_roundtrip [Tok.sym "let", Tok.ident "x", Tok.sym "=", Tok.intTok 42, Tok.sym ";"]
      (Block.mk (Stmt.letDecl "x" none (Expr.intLit 42)) []) ⟨20, rfl⟩⟩

end CppSafe
